import Mathlib

/-!
# Verification of the monster-rig rigging/animation engine

This file gives a shallow embedding of the core data model and algorithms of
the monster-rig editor (bone skeleton store, forward-kinematics animation
evaluator, skeleton binder, weight calculator, AI-animation conversion) and
proves or refutes the specification claims about them.

Conventions of the embedding:
* JavaScript numbers are modelled as exact rationals (`ℚ`) where the code uses
  only field operations, and as reals (`ℝ`) where square roots, powers or
  trigonometry appear.  Non-finite doubles (`NaN`, `±Infinity`) are modelled
  explicitly by the `JSNum` type where the code tests `Number.isFinite`.
* Bone ids (opaque strings in the source) are modelled as naturals; bone
  names, which the code inspects character by character, are `List Char`.
* Mutation of the zustand store is modelled by explicit state passing: every
  store action becomes a function from the bone list to a new bone list.

The file is organised as definitions first (the embedding), then theorems.
-/

namespace MonsterRig

/-- Three-component vector, mirroring `THREE.Vector3` records `[x, y, z]`. -/
structure Vec3 (K : Type) where
  x : K
  y : K
  z : K
deriving DecidableEq, Repr

/-- Quaternion `[x, y, z, w]`, mirroring `THREE.Quaternion`. -/
structure Quat (K : Type) where
  x : K
  y : K
  z : K
  w : K
deriving DecidableEq, Repr

variable {K : Type} [LinearOrderedField K]

/-- Componentwise vector addition (`Vector3.add`). -/
def vadd (a b : Vec3 K) : Vec3 K := ⟨a.x + b.x, a.y + b.y, a.z + b.z⟩

/-- Componentwise vector subtraction (`Vector3.sub`). -/
def vsub (a b : Vec3 K) : Vec3 K := ⟨a.x - b.x, a.y - b.y, a.z - b.z⟩

/-- Scalar multiple of a vector (`Vector3.multiplyScalar`). -/
def vsmul (s : K) (a : Vec3 K) : Vec3 K := ⟨s * a.x, s * a.y, s * a.z⟩

/-- Dot product (`Vector3.dot`). -/
def vdot (a b : Vec3 K) : K := a.x * b.x + a.y * b.y + a.z * b.z

/-- Squared length of a vector (`Vector3.lengthSq`). -/
def vlengthSq (a : Vec3 K) : K := a.x * a.x + a.y * a.y + a.z * a.z

/-- Hamilton product, mirroring `THREE.Quaternion.multiply` (`a * b`). -/
def qmul (a b : Quat K) : Quat K :=
  ⟨a.x * b.w + a.w * b.x + a.y * b.z - a.z * b.y,
   a.y * b.w + a.w * b.y + a.z * b.x - a.x * b.z,
   a.z * b.w + a.w * b.z + a.x * b.y - a.y * b.x,
   a.w * b.w - a.x * b.x - a.y * b.y - a.z * b.z⟩

/-- Quaternion conjugate; `THREE.Quaternion.invert` computes exactly this
(the inverse under the unit-length assumption). -/
def qconj (a : Quat K) : Quat K := ⟨-a.x, -a.y, -a.z, a.w⟩

/-- Componentwise negation of a quaternion. -/
def qneg (a : Quat K) : Quat K := ⟨-a.x, -a.y, -a.z, -a.w⟩

/-- Squared norm of a quaternion (`THREE.Quaternion.lengthSq`). -/
def qnormSq (a : Quat K) : K := a.x * a.x + a.y * a.y + a.z * a.z + a.w * a.w

/-- Rotation of a vector by a quaternion, mirroring
`THREE.Vector3.applyQuaternion` (the `t = 2 cross(q, v)` formulation). -/
def applyQuat (q : Quat K) (v : Vec3 K) : Vec3 K :=
  let tx := 2 * (q.y * v.z - q.z * v.y)
  let ty := 2 * (q.z * v.x - q.x * v.z)
  let tz := 2 * (q.x * v.y - q.y * v.x)
  ⟨v.x + q.w * tx + q.y * tz - q.z * ty,
   v.y + q.w * ty + q.z * tx - q.x * tz,
   v.z + q.w * tz + q.x * ty - q.y * tx⟩

/-- Interpolation modes carried by a keyframe. -/
inductive InterpKind where
  | linear
  | bezier
  | step
deriving DecidableEq, Repr

/-- Which property an animation track drives. -/
inductive TrackProp where
  | position
  | rotApplied
  | scaleApplied
deriving DecidableEq, Repr

/-- One keyframe of an animation track: a frame number, the raw value array
(3 entries for position/scale, 4 for rotation) and the interpolation mode. -/
structure Keyframe (K : Type) where
  frame : K
  value : List K
  interpolation : InterpKind
deriving DecidableEq, Repr

/-- One animation track: the target bone, the driven property and the
keyframe list. -/
structure AnimationTrack (K : Type) where
  boneId : ℕ
  property : TrackProp
  keyframes : List (Keyframe K)
deriving DecidableEq, Repr

/-- Bone record of the editor store (`BoneData` in `types`): world-space
position/rotation, local scale, id and optional parent id. -/
structure BoneData (K : Type) where
  id : ℕ
  name : List Char
  parentId : Option ℕ
  position : Vec3 K
  rotation : Quat K
  scale : Vec3 K
  length : K
deriving DecidableEq, Repr

/-- Timeline slice of the editor store used by the playback loop. -/
structure TimelineState (K : Type) where
  currentFrame : K
  isPlaying : Bool
  fps : K
  loop : Bool
deriving DecidableEq, Repr

/-- JavaScript `%` on nonnegative operands: `a - b * ⌊a / b⌋`. -/
def jsMod [FloorRing K] (a b : K) : K := a - b * ⌊a / b⌋

/-- One tick of the playback loop for an existing current animation, from the
`useFrame` callback in `AnimationController`: while playing the frame advances
by `delta * fps`; on reaching `frameCount` it either wraps modulo `frameCount`
(loop) or clamps to `frameCount` and stops; while not playing the timeline is
left untouched (the callback only re-applies the pose on scrub). -/
def animationTick [FloorRing K] (timeline : TimelineState K) (frameCount : K)
    (delta : K) : TimelineState K :=
  if timeline.isPlaying then
    let frameDelta := delta * timeline.fps
    let newFrame := timeline.currentFrame + frameDelta
    if frameCount ≤ newFrame then
      if timeline.loop then
        { timeline with currentFrame := jsMod newFrame frameCount }
      else
        { timeline with currentFrame := frameCount, isPlaying := false }
    else
      { timeline with currentFrame := newFrame }
  else
    timeline

/-- Update the first bone with the given id (zustand `find` + `Object.assign`
mutation). -/
def updateBoneIn (bones : List (BoneData K)) (id : ℕ)
    (f : BoneData K → BoneData K) : List (BoneData K) :=
  match bones with
  | [] => []
  | b :: rest => if b.id = id then f b :: rest else b :: updateBoneIn rest id f

/-- The store action `setBoneParent`: sets `bone.parentId` on the first bone
with the given id.  Note: the store performs no cycle or self-parent check. -/
def setBoneParent (bones : List (BoneData K)) (boneId : ℕ)
    (parentId : Option ℕ) : List (BoneData K) :=
  updateBoneIn bones boneId (fun b => { b with parentId := parentId })

/-- The store action `deleteBone`: if the bone exists, reparent its direct
children to the deleted bone's parent and filter the bone out. -/
def deleteBone (bones : List (BoneData K)) (id : ℕ) : List (BoneData K) :=
  match bones.find? (fun b => b.id == id) with
  | none => bones
  | some bone =>
      (bones.map (fun b =>
        if b.parentId = some id then { b with parentId := bone.parentId } else b)
      ).filter (fun b => b.id != id)

/-- One step up the parent chain: from a bone id to its parent's id (via the
first bone matching the id, as `bones.find` does). -/
def parentStep (bones : List (BoneData K)) (o : Option ℕ) : Option ℕ :=
  o.bind fun i => (bones.find? (fun b => b.id == i)).bind (·.parentId)

/-- A bone id is rooted if iterating the parent chain eventually leaves the
skeleton (reaches a bone with no parent, or a dangling reference). -/
def Rooted (bones : List (BoneData K)) (i : ℕ) : Prop :=
  ∃ k, (parentStep bones)^[k] (some i) = none

/-- The parent graph is a forest: every bone's parent chain terminates. -/
def Forest (bones : List (BoneData K)) : Prop :=
  ∀ b ∈ bones, Rooted bones b.id

/-- The reparenting function applied to each bone by `deleteBone`. -/
def reparentTo (d : BoneData K) (b : BoneData K) : BoneData K :=
  if b.parentId = some d.id then { b with parentId := d.parentId } else b

/-- The ancestor walk of `HierarchyPanel.handleDrop`: starting from the drop
target, walk up the parent chain; report `true` as soon as a visited bone is
the dragged bone, `false` when the chain leaves the skeleton.  The `while`
loop of the source is modelled with explicit fuel; `none` stands for running
out of fuel (the JavaScript loop would still be running). -/
def ancestorHits (bones : List (BoneData K)) (draggedId : ℕ) :
    ℕ → Option (BoneData K) → Option Bool
  | _, none => some false
  | 0, some _ => none
  | fuel + 1, some parent =>
      if parent.id = draggedId then some true
      else ancestorHits bones draggedId fuel
        (bones.find? (fun b => some b.id == parent.parentId))

/-- The drop handler `handleDrop` of the hierarchy panel: dropping bone
`draggedId` onto `target` reparents the dragged bone to the target unless the
target is the dragged bone itself or one of its descendants (detected by the
ancestor walk), in which case nothing happens. -/
def handleDrop (bones : List (BoneData K)) (draggedId : ℕ)
    (target : BoneData K) (fuel : ℕ) : List (BoneData K) :=
  if draggedId ≠ target.id then
    match ancestorHits bones draggedId fuel (some target) with
    | some false => setBoneParent bones draggedId (some target.id)
    | _ => bones
  else bones

/-- Demo skeleton (C9/C3 witnesses): a three-bone chain `0 ← 1 ← 2`. -/
def demoChain : List (BoneData ℚ) :=
  [⟨0, ['r'], none, ⟨0,0,0⟩, ⟨0,0,0,1⟩, ⟨1,1,1⟩, 1⟩,
   ⟨1, ['m'], some 0, ⟨0,1,0⟩, ⟨0,0,0,1⟩, ⟨1,1,1⟩, 1⟩,
   ⟨2, ['t'], some 1, ⟨0,2,0⟩, ⟨0,0,0,1⟩, ⟨1,1,1⟩, 1⟩]

/-- Demo skeleton for the C3 counterexample: bone 1 is a child of bone 0. -/
def demoPair : List (BoneData ℚ) :=
  [⟨0, ['a'], none, ⟨0,0,0⟩, ⟨0,0,0,1⟩, ⟨1,1,1⟩, 1⟩,
   ⟨1, ['b'], some 0, ⟨0,1,0⟩, ⟨0,0,0,1⟩, ⟨1,1,1⟩, 1⟩]

/-- World→local position conversion as written in `buildThreeSkeleton`
(`SkeletonBinding.tsx`): `localPos = (worldPos − parentPos)` rotated by
`parentRot.clone().invert()`. -/
def buildThreeSkeleton_localPos (parentPos : Vec3 K) (parentRot : Quat K)
    (worldPos : Vec3 K) : Vec3 K :=
  applyQuat (qconj parentRot) (vsub worldPos parentPos)

/-- World→local rotation conversion as written in `buildThreeSkeleton`:
`localRot = parentRot.clone().invert().multiply(worldRot)`. -/
def buildThreeSkeleton_localRot (parentRot worldRot : Quat K) : Quat K :=
  qmul (qconj parentRot) worldRot

/-- The same world→local position conversion at the export call site
(`buildExportSkeleton` in the GLB exporter). -/
def buildExportSkeleton_localPos (parentPos : Vec3 K) (parentRot : Quat K)
    (worldPos : Vec3 K) : Vec3 K :=
  applyQuat (qconj parentRot) (vsub worldPos parentPos)

/-- The same world→local rotation conversion at the export call site. -/
def buildExportSkeleton_localRot (parentRot worldRot : Quat K) : Quat K :=
  qmul (qconj parentRot) worldRot

/-- The claim-side local→world map (the inverse conversion, using the same
parent world transform). -/
def localToWorldPos (parentPos : Vec3 K) (parentRot : Quat K)
    (localPos : Vec3 K) : Vec3 K :=
  vadd parentPos (applyQuat parentRot localPos)

/-- The claim-side local→world rotation map. -/
def localToWorldRot (parentRot localRot : Quat K) : Quat K :=
  qmul parentRot localRot

/-- Stable descending sort by weight, mirroring the JavaScript
`sort((a, b) => b[1] - a[1])` (Array.prototype.sort is stable). -/
def sortByWeightDesc (l : List (ℕ × K)) : List (ℕ × K) :=
  List.insertionSort (fun a b : ℕ × K => b.2 ≤ a.2) l

/-- Per-vertex skin reduction of `createSkinnedMesh` (SkeletonBinding.tsx):
sort by weight, take the top 4, pad with `[0, 0]`, then normalise, or set
the first entry to `[0, 1]` when the total is zero. -/
def createSkinnedMesh_reduce (weights : List (ℕ × K)) : List (ℕ × K) :=
  let sorted := (sortByWeightDesc weights).take 4
  let padded := sorted ++ List.replicate (4 - sorted.length) (0, (0 : K))
  let total : K := (padded.map (fun p => p.2)).sum
  if 0 < total then
    padded.map (fun e => (e.1, e.2 / total))
  else
    match padded with
    | [] => []
    | _ :: rest => (0, (1 : K)) :: rest

/-- The same reduction as written in `createExportSkinnedMesh` (the GLB
exporter); the code block is textually identical. -/
def createExportSkinnedMesh_reduce (weights : List (ℕ × K)) : List (ℕ × K) :=
  let sorted := (sortByWeightDesc weights).take 4
  let padded := sorted ++ List.replicate (4 - sorted.length) (0, (0 : K))
  let total : K := (padded.map (fun p => p.2)).sum
  if 0 < total then
    padded.map (fun e => (e.1, e.2 / total))
  else
    match padded with
    | [] => []
    | _ :: rest => (0, (1 : K)) :: rest

/-- Rest-pose entry captured by `initializeRestPose` in
`AnimationController.tsx`: world position, world rotation, and the local
offset from the parent. -/
structure RestEntry (K : Type) where
  position : Vec3 K
  rotation : Quat K
  localOffset : Vec3 K
deriving DecidableEq, Repr

/-- `calculateLocalOffset`: the bone's offset from its parent expressed in
the parent's local space (world offset rotated by the inverse parent
rotation); for a parentless bone, the world position itself. -/
def calculateLocalOffset (bone : BoneData K) (parentBone : Option (BoneData K)) :
    Vec3 K :=
  match parentBone with
  | none => bone.position
  | some parent =>
      applyQuat (qconj parent.rotation) (vsub bone.position parent.position)

/-- `initializeRestPose`: snapshot every bone's position, rotation and local
offset (parent resolved by id in the same bone list). -/
def initializeRestPose (bones : List (BoneData K)) : List (ℕ × RestEntry K) :=
  bones.map fun bone =>
    (bone.id,
      ⟨bone.position, bone.rotation,
        calculateLocalOffset bone
          (bone.parentId.bind (fun pid => bones.find? (fun b => b.id == pid)))⟩)

/-- Lookup in the rest-pose snapshot (`restPose[bone.id]`). -/
def restFind (rest : List (ℕ × RestEntry K)) (id : ℕ) : Option (RestEntry K) :=
  (rest.find? (fun e => e.1 == id)).map (·.2)

/-- The per-child update of `applyForwardKinematics`: when both the parent
and the child have rest entries and the parent resolves in the (frozen) bone
snapshot, the child's position in the store becomes
`parentPos + parentRot ⊛ childRestLocalOffset`.  Only the position is
written; the child's rotation is never touched. -/
def fkChildUpdate (bones : List (BoneData K)) (restPose : List (ℕ × RestEntry K))
    (bone child : BoneData K) (store : List (BoneData K)) : List (BoneData K) :=
  match restFind restPose bone.id, restFind restPose child.id with
  | some _, some childRest =>
      match bones.find? (fun b => b.id == bone.id) with
      | none => store
      | some currentBone =>
          let newChildPos := vadd currentBone.position
            (applyQuat currentBone.rotation childRest.localOffset)
          updateBoneIn store child.id (fun b => { b with position := newChildPos })
  | _, _ => store

/-- Breadth-first queue loop of `applyForwardKinematics`.  `bones` is the
array captured when the pass started (the zustand snapshot: updates go to
`store`, reads come from `bones`); the `while` loop is modelled with fuel. -/
def fkLoop (bones : List (BoneData K)) (restPose : List (ℕ × RestEntry K)) :
    ℕ → List (BoneData K) → List (BoneData K) → List (BoneData K)
  | 0, _, store => store
  | _ + 1, [], store => store
  | fuel + 1, bone :: queueRest, store =>
      let children := bones.filter (fun b => b.parentId == some bone.id)
      let store1 := children.foldl
        (fun st child => fkChildUpdate bones restPose bone child st) store
      fkLoop bones restPose fuel (queueRest ++ children) store1

/-- `applyForwardKinematics` (AnimationController.tsx): start the queue from
the parentless bones and walk breadth-first. -/
def applyForwardKinematics (bones : List (BoneData K))
    (restPose : List (ℕ × RestEntry K)) (store : List (BoneData K)) :
    List (BoneData K) :=
  fkLoop bones restPose (bones.length + 1)
    (bones.filter (fun b => b.parentId == none)) store

/-- Stable sort of keyframes by frame
(`[...keyframes].sort((a, b) => a.frame - b.frame)`). -/
def sortKeyframes (kfs : List (Keyframe K)) : List (Keyframe K) :=
  List.insertionSort (fun a b : Keyframe K => a.frame ≤ b.frame) kfs

/-- Bracket search of `interpolateValue`: `prevKf` ends as the last keyframe
with `frame ≤ f`, `nextKf` as the first with `frame ≥ f`. -/
def findBracket (frame : K) (sorted : List (Keyframe K)) :
    Option (Keyframe K) × Option (Keyframe K) :=
  sorted.foldl
    (fun acc kf =>
      (if kf.frame ≤ frame then some kf else acc.1,
       if frame ≤ kf.frame ∧ acc.2 = none then some kf else acc.2))
    (none, none)

/-- Componentwise linear blend `v + (n − v) * t` over paired entries.  The
source maps over the previous value's entries; for the equal-length value
arrays tracks carry, this is `zipWith`. -/
def lerpList (a b : List K) (t : K) : List K :=
  List.zipWith (fun v n => v + (n - v) * t) a b

/-- The playback sampler `interpolateValue` (AnimationController.tsx):
exact-frame hit returns the stored value, before-first returns the first,
after-last the last, otherwise blend with `t` (step keeps the previous
value, bezier uses smoothstep).  Note that the value arrays are blended
componentwise for every property, including rotation quaternions. -/
def interpolateValue (keyframes : List (Keyframe K)) (frame : K) :
    Option (List K) :=
  if keyframes.isEmpty then none
  else
    let sortedKf := sortKeyframes keyframes
    let bracket := findBracket frame sortedKf
    match bracket.1, bracket.2 with
    | some prevKf, nextOpt =>
        if prevKf.frame = frame then some prevKf.value
        else
          match nextOpt with
          | none => some prevKf.value
          | some nextKf =>
              let t := (frame - prevKf.frame) / (nextKf.frame - prevKf.frame)
              match prevKf.interpolation with
              | .step => some prevKf.value
              | .linear => some (lerpList prevKf.value nextKf.value t)
              | .bezier =>
                  some (lerpList prevKf.value nextKf.value (t * t * (3 - 2 * t)))
    | none, nextOpt => nextOpt.map (·.value)

/-- Read a 3-entry value array into a vector; tracks always carry
well-formed 3-entry arrays, malformed input keeps the previous field. -/
def listToVec3 (value : List K) (dflt : Vec3 K) : Vec3 K :=
  match value with
  | x :: y :: z :: _ => ⟨x, y, z⟩
  | _ => dflt

/-- Read a 4-entry value array into a quaternion. -/
def listToQuat (value : List K) (dflt : Quat K) : Quat K :=
  match value with
  | x :: y :: z :: w :: _ => ⟨x, y, z, w⟩
  | _ => dflt

/-- `applyAnimation` (AnimationController.tsx): the first pass applies each
track's interpolated value through the store's `updateBone` (bone lookups
use the bone list captured at entry and only rotation tracks mark a bone as
animated); if at least one rotation track was applied and the rest pose is
nonempty, the forward-kinematics pass then runs, with both its frozen
snapshot and its store being the post-first-pass state. -/
def applyAnimation (bones : List (BoneData K))
    (restPose : List (ℕ × RestEntry K)) (tracks : List (AnimationTrack K))
    (frame : K) : List (BoneData K) :=
  if tracks.isEmpty then bones
  else
    let pass1 := tracks.foldl
      (fun (acc : List (BoneData K) × List ℕ) track =>
        match bones.find? (fun b => b.id == track.boneId) with
        | none => acc
        | some bone =>
            if track.keyframes.isEmpty then acc
            else
              match interpolateValue track.keyframes frame with
              | none => acc
              | some value =>
                  match track.property with
                  | .position =>
                      (updateBoneIn acc.1 bone.id
                        (fun b => { b with position := listToVec3 value b.position }),
                       acc.2)
                  | .rotApplied =>
                      (updateBoneIn acc.1 bone.id
                        (fun b => { b with rotation := listToQuat value b.rotation }),
                       bone.id :: acc.2)
                  | .scaleApplied =>
                      (updateBoneIn acc.1 bone.id
                        (fun b => { b with scale := listToVec3 value b.scale }),
                       acc.2))
      (bones, [])
    if ¬ pass1.2.isEmpty ∧ ¬ restPose.isEmpty then
      applyForwardKinematics pass1.1 restPose pass1.1
    else
      pass1.1

/-- Concrete two-bone skeleton for the C2 counterexample: identity rest
rotations, child at `(0,1,0)` under the root. -/
def demoFkPair : List (BoneData ℚ) :=
  [⟨0, ['r'], none, ⟨0,0,0⟩, ⟨0,0,0,1⟩, ⟨1,1,1⟩, 1⟩,
   ⟨1, ['c'], some 0, ⟨0,1,0⟩, ⟨0,0,0,1⟩, ⟨1,1,1⟩, 1⟩]

/-- A single rotation track on the root: unit quaternion `(0,0,3/5,4/5)` at
frame 0. -/
def demoFkTracks : List (AnimationTrack ℚ) :=
  [⟨0, .rotApplied, [⟨0, [0, 0, 3/5, 4/5], .linear⟩]⟩]

/-! ### Export-time sampling (GLB exporter) -/

/-- JavaScript `Number.EPSILON`, the threshold of the near-linear branch of
`THREE.Quaternion.slerp`. -/
noncomputable def jsEpsilon : ℝ := (2 : ℝ) ^ (-52 : ℤ)

/-- JavaScript `Math.atan2` on reals. -/
noncomputable def jsAtan2 (y x : ℝ) : ℝ :=
  if 0 < x then Real.arctan (y / x)
  else if x = 0 then
    if 0 < y then Real.pi / 2
    else if y < 0 then -(Real.pi / 2)
    else 0
  else if 0 ≤ y then Real.arctan (y / x) + Real.pi
  else Real.arctan (y / x) - Real.pi

/-- `THREE.Quaternion.normalize`: divide by the length, except that a
zero-length quaternion becomes the identity `(0, 0, 0, 1)`. -/
noncomputable def quatNormalize (q : Quat ℝ) : Quat ℝ :=
  let l := Real.sqrt (qnormSq q)
  if l = 0 then ⟨0, 0, 0, 1⟩ else ⟨q.x / l, q.y / l, q.z / l, q.w / l⟩

/-- `THREE.Quaternion.slerp` as invoked by the exporter (`q1.slerp(q2, t)`
mutates `q1` into the result): early returns at `t = 0` and `t = 1`,
shortest-path sign flip on a negative dot product, `qa` when the cosine of
the half angle reaches `1`, the normalized linear blend when the squared
sine of the half angle is at most `Number.EPSILON`, and the exact sine-ratio
formula otherwise. -/
noncomputable def slerpQuat (qa qb : Quat ℝ) (t : ℝ) : Quat ℝ :=
  if t = 0 then qa
  else if t = 1 then qb
  else
    let cos0 := qa.w * qb.w + qa.x * qb.x + qa.y * qb.y + qa.z * qb.z
    let q2 := if cos0 < 0 then qneg qb else qb
    let cosHalfTheta := if cos0 < 0 then -cos0 else cos0
    if 1 ≤ cosHalfTheta then qa
    else
      let sqrSinHalfTheta := 1 - cosHalfTheta * cosHalfTheta
      if sqrSinHalfTheta ≤ jsEpsilon then
        let s := 1 - t
        quatNormalize ⟨s * qa.x + t * q2.x, s * qa.y + t * q2.y,
          s * qa.z + t * q2.z, s * qa.w + t * q2.w⟩
      else
        let sinHalfTheta := Real.sqrt sqrSinHalfTheta
        let halfTheta := jsAtan2 sinHalfTheta cosHalfTheta
        let ratioA := Real.sin ((1 - t) * halfTheta) / sinHalfTheta
        let ratioB := Real.sin (t * halfTheta) / sinHalfTheta
        ⟨qa.x * ratioA + q2.x * ratioB, qa.y * ratioA + q2.y * ratioB,
         qa.z * ratioA + q2.z * ratioB, qa.w * ratioA + q2.w * ratioB⟩

/-- The keyframe scan of `getAnimatedValueAtFrame`: `before` follows every
keyframe whose frame is at most the requested one, and the loop breaks at
the first keyframe whose frame is at least the requested one, which becomes
`after`. -/
def findBracketExport (frame : K) :
    List (Keyframe K) → Keyframe K → Keyframe K → Keyframe K × Keyframe K
  | [], before, after => (before, after)
  | kf :: rest, before, after =>
      let before1 := if kf.frame ≤ frame then kf else before
      if frame ≤ kf.frame then (before1, kf)
      else findBracketExport frame rest before1 after

/-- The export sampler `getAnimatedValueAtFrame` (GLB exporter): looks up
the track of the bone/property pair (the lookup map keeps the last inserted
track of a pair), sorts its keyframes, brackets the requested frame with
`before`/`after` initialized to the first and last keyframes, and
interpolates — spherical interpolation for rotation values, componentwise
blending for position and scale, with the same exact-hit, step and bezier
cases as the playback sampler. -/
noncomputable def getAnimatedValueAtFrame (tracks : List (AnimationTrack ℝ))
    (boneId : ℕ) (property : TrackProp) (frame : ℝ) : Option (List ℝ) :=
  match (tracks.filter
      (fun tr => tr.boneId == boneId && tr.property == property)).getLast? with
  | none => none
  | some boneTrack =>
    if boneTrack.keyframes.isEmpty then none
    else
      let keyframes := sortKeyframes boneTrack.keyframes
      let first := keyframes.headD ⟨0, [], .linear⟩
      let last := keyframes.getLastD ⟨0, [], .linear⟩
      let bracket := findBracketExport frame keyframes first last
      let before := bracket.1
      let after := bracket.2
      if before.frame = after.frame ∨ before.frame = frame then
        some before.value
      else if after.frame = frame then
        some after.value
      else if before.interpolation = .step then
        some before.value
      else
        let t := (frame - before.frame) / (after.frame - before.frame)
        let blend :=
          if before.interpolation = .bezier then t * t * (3 - 2 * t) else t
        if property = .rotApplied then
          let q1 := listToQuat before.value ⟨0, 0, 0, 1⟩
          let q2 := listToQuat after.value ⟨0, 0, 0, 1⟩
          let q := slerpQuat q1 q2 blend
          some [q.x, q.y, q.z, q.w]
        else
          some (lerpList before.value after.value blend)

/-- The rotation scenario of C1: a linear rotation track from the identity
at frame 0 to a 90° rotation about Y at frame 10. -/
noncomputable def demoRotKfs : List (Keyframe ℝ) :=
  [⟨0, [0, 0, 0, 1], .linear⟩,
   ⟨10, [0, Real.sqrt 2 / 2, 0, Real.sqrt 2 / 2], .linear⟩]

/-- The C1 rotation scenario as a track list of bone 0 for the export
sampler. -/
noncomputable def demoRotTracks : List (AnimationTrack ℝ) :=
  [⟨0, .rotApplied, demoRotKfs⟩]

/-! ### Envelope weight calculation (weightCalculator.ts) -/

/-- `THREE.Vector3.normalize`: divide by the length; a zero-length vector is
left unchanged (three.js divides by `length() || 1`). -/
noncomputable def vnormalize (v : Vec3 ℝ) : Vec3 ℝ :=
  let l := Real.sqrt (vlengthSq v)
  if l = 0 then v else ⟨v.x / l, v.y / l, v.z / l⟩

/-- Euclidean distance between two points (`Vector3.distanceTo`). -/
noncomputable def vdist (a b : Vec3 ℝ) : ℝ := Real.sqrt (vlengthSq (vsub a b))

/-- `getBoneSegment` (weightCalculator.ts): the bone's segment starts at its
position and runs along its local +Y axis rotated by its quaternion (and
normalized) for `max(length, 0.001)` units. -/
noncomputable def getBoneSegment (bone : BoneData ℝ) : Vec3 ℝ × Vec3 ℝ :=
  let start := bone.position
  let len := max bone.length 0.001
  let direction := vnormalize (applyQuat bone.rotation ⟨0, 1, 0⟩)
  (start, vadd start (vsmul len direction))

/-- `distanceToSegment` (weightCalculator.ts): point-to-segment distance,
measuring point-to-point for a degenerate zero-length segment and clamping
the projection parameter to `[0, 1]` otherwise. -/
noncomputable def distanceToSegment (point start segEnd : Vec3 ℝ) : ℝ :=
  let segment := vsub segEnd start
  let lengthSq := vlengthSq segment
  if lengthSq = 0 then vdist point start
  else
    let t := vdot (vsub point start) segment / lengthSq
    let clamped := min 1 (max 0 t)
    let closest := vadd start (vsmul clamped segment)
    vdist point closest

/-- `calculateEnvelopeWeights` (weightCalculator.ts): for each bone, indexed
in order, whose point-to-segment distance lies below the envelope radius
`max(2·length, 0.05)`, the candidate weight is `(1 − d/r)^falloff`, and the
`(index, weight)` pair is kept only when that weight exceeds `0.001`. -/
noncomputable def calculateEnvelopeWeights (vertex : Vec3 ℝ)
    (bones : List (BoneData ℝ)) (falloff : ℝ) : List (ℕ × ℝ) :=
  bones.enum.filterMap fun p =>
    let seg := getBoneSegment p.2
    let distance := distanceToSegment vertex seg.1 seg.2
    let envelopeRadius := max (p.2.length * 2) 0.05
    if distance < envelopeRadius then
      let weight := (1 - distance / envelopeRadius) ^ falloff
      if weight > 0.001 then some (p.1, weight) else none
    else none

/-- The C6 demo bone: unit length, identity rotation, sitting at the
origin, so its segment runs from the origin to `(0, 1, 0)`. -/
noncomputable def demoEnvBone : BoneData ℝ :=
  ⟨0, ['b'], none, ⟨0, 0, 0⟩, ⟨0, 0, 0, 1⟩, ⟨1, 1, 1⟩, 1⟩

/-! ### AI animation conversion (aiAnimationService.ts)

JavaScript numbers in the raw oracle response are modelled by `JSNum`,
which separates finite doubles from `NaN` and the infinities so that
`Number.isFinite` tests are exact.  Bone ids are naturals as elsewhere;
names and prompts are character lists.  The oracle's JSON fields arrive as
numbers, so `Number(x)` coercions are identities here. -/

/-- A JavaScript number: either a finite double or one of the non-finite
values. -/
inductive JSNum where
  | fin (x : ℝ)
  | nan
  | posInf
  | negInf

/-- `Math.round` (ties toward `+∞`) on a JavaScript number. -/
noncomputable def jsRound : JSNum → JSNum
  | .fin x => .fin (⌊x + 1 / 2⌋ : ℤ)
  | v => v

/-- `Math.max(0, ·)`: `NaN` propagates, `-∞` clamps to `0`. -/
noncomputable def jsMax0 : JSNum → JSNum
  | .fin x => .fin (max 0 x)
  | .nan => .nan
  | .posInf => .posInf
  | .negInf => .fin 0

/-- `Number.isFinite`, returning the finite value. -/
def jsFinite? : JSNum → Option ℝ
  | .fin x => some x
  | _ => none

/-- A raw oracle keyframe: frame number, optional length-checked rotation
and position arrays, and an optional recognized interpolation keyword
(anything else is `none` and normalizes to linear). -/
structure RawKeyframe where
  frame : JSNum
  rotation : Option (List JSNum)
  position : Option (List JSNum)
  interpolation : Option InterpKind

/-- A raw per-bone animation entry of the oracle response. -/
structure RawBoneAnim where
  boneName : Option (List Char)
  keyframes : List RawKeyframe

/-- The raw oracle response after JSON parsing: fps, frame count and the
bone entries (absent arrays arrive as `[]` via `|| []`). -/
structure RawAnimationData where
  fps : JSNum
  frameCount : JSNum
  bones : List RawBoneAnim

/-- An animation clip as produced by the conversion (id and display name
omitted — no claim mentions them). -/
structure AnimationClip where
  fps : ℝ
  frameCount : ℝ
  tracks : List (AnimationTrack ℝ)

/-- Lowercasing of a name (`String.prototype.toLowerCase`). -/
def lcName (s : List Char) : List Char := s.map Char.toLower

/-- Substring test (`String.prototype.includes`). -/
def strContains : List Char → List Char → Bool
  | [], pat => pat.isEmpty
  | c :: rest, pat => pat.isPrefixOf (c :: rest) || strContains rest pat

/-- `matchesAny`: does the name contain any of the patterns? -/
def matchesAny (name : List Char) (patterns : List (List Char)) : Bool :=
  patterns.any (fun p => strContains name p)

/-- Whitespace-run collapsing of `normalizeName`'s `replace(/\s+/g, '_')`:
the flag records whether the previous character was part of a whitespace
run already replaced. -/
def collapseWsAux : List Char → Bool → List Char
  | [], _ => []
  | c :: rest, inRun =>
    if c.isWhitespace then
      if inRun then collapseWsAux rest true
      else '_' :: collapseWsAux rest true
    else c :: collapseWsAux rest false

/-- `normalizeName` (aiAnimationService.ts): lowercase, whitespace runs
become single underscores. -/
def normalizeName (value : List Char) : List Char :=
  collapseWsAux (value.map Char.toLower) false

/-- `isCentralPelvisName`: the normalized name ends in pelvis/hips/hip and
not in a left/right suffix. -/
def isCentralPelvisName (name : List Char) : Bool :=
  let normalized := normalizeName name
  (["pelvis".toList, "hips".toList, "hip".toList].any
      (fun p => p.isSuffixOf normalized)) &&
    !(["left".toList, "right".toList, "_l".toList, "_r".toList, ".l".toList,
        ".r".toList, "_left".toList, "_right".toList].any
      (fun p => p.isSuffixOf normalized))

/-- Separator characters of the side regexes (`_`, `.`, `-`). -/
def isSepChar (c : Char) : Bool := c = '_' || c = '.' || c = '-'

/-- Does the word occur at the head of `s`, followed by a separator or the
end of the string? -/
def boundedAt (w s : List Char) : Bool :=
  w.isPrefixOf s &&
    (match s.drop w.length with
     | [] => true
     | d :: _ => isSepChar d)

/-- Scan for a separator-bounded occurrence of the word
(`(^|_|\.|-)(w)(_|\.|-|$)`). -/
def hasBoundedWordAux (w : List Char) : List Char → Bool → Bool
  | [], _ => false
  | c :: rest, boundary =>
    (boundary && boundedAt w (c :: rest)) || hasBoundedWordAux w rest (isSepChar c)

/-- Separator-bounded word occurrence anywhere in the string. -/
def hasBoundedWord (s w : List Char) : Bool := hasBoundedWordAux w s true

/-- Left or right, as detected from a bone name. -/
inductive Side where
  | left
  | right
deriving DecidableEq, Repr

/-- `getSide`: separator-bounded `left`/`l` or `right`/`r` in the
normalized name. -/
def getSide (name : List Char) : Option Side :=
  let normalized := normalizeName name
  if hasBoundedWord normalized ("left".toList) ||
      hasBoundedWord normalized ("l".toList) then some .left
  else if hasBoundedWord normalized ("right".toList) ||
      hasBoundedWord normalized ("r".toList) then some .right
  else none

/-- The prompt intents the fallback distinguishes. -/
inductive Intent where
  | locomotion
  | idle
  | other
deriving DecidableEq, Repr

/-- `detectIntent`: keyword search in the lowercased prompt. -/
def detectIntent (prompt : List Char) : Intent :=
  let text := prompt.map Char.toLower
  if matchesAny text ["walk".toList, "run".toList, "jog".toList,
      "sprint".toList, "stride".toList, "step".toList, "march".toList,
      "locomot".toList, "laufen".toList, "renn".toList, "jogg".toList,
      "gehen".toList, "spazier".toList, "laufzyklus".toList,
      "gangzyklus".toList] then .locomotion
  else if matchesAny text ["idle".toList, "breathe".toList,
      "breathing".toList, "stand".toList, "rest".toList, "stehen".toList,
      "ruhe".toList, "atmen".toList, "atmung".toList] then .idle
  else .other

/-- `THREE.MathUtils.degToRad`. -/
noncomputable def degToRad (d : ℝ) : ℝ := d * (Real.pi / 180)

/-- The named bone slots of the rig analysis (`RigAnalysis['groups']`). -/
inductive GroupKey where
  | pelvis | chest | neck | head
  | clavicleLeft | clavicleRight
  | upperArmLeft | upperArmRight
  | lowerArmLeft | lowerArmRight
  | handLeft | handRight
  | upperLegLeft | upperLegRight
  | lowerLegLeft | lowerLegRight
  | footLeft | footRight
deriving DecidableEq, Repr

/-- The candidate buckets accumulated alongside the groups. -/
inductive CandKey where
  | clavicle | upperArm | lowerArm | hand | upperLeg | lowerLeg | foot
deriving DecidableEq, Repr

/-- First-win assignment `groups[k] = groups[k] || bone`. -/
def setFirst (g : GroupKey → Option (BoneData ℝ)) (k : GroupKey)
    (bone : BoneData ℝ) : GroupKey → Option (BoneData ℝ) :=
  fun k2 => if k2 = k then (g k).orElse (fun _ => some bone) else g k2

/-- Append to a candidate bucket. -/
def addCand (c : CandKey → List (BoneData ℝ)) (k : CandKey)
    (bone : BoneData ℝ) : CandKey → List (BoneData ℝ) :=
  fun k2 => if k2 = k then c k ++ [bone] else c k2

/-- One step of `analyzeRig`'s classification loop over the bones. -/
def classifyStep
    (acc : (GroupKey → Option (BoneData ℝ)) × (CandKey → List (BoneData ℝ)))
    (bone : BoneData ℝ) :
    (GroupKey → Option (BoneData ℝ)) × (CandKey → List (BoneData ℝ)) :=
  let name := normalizeName bone.name
  let side := getSide name
  let isLowerArm := matchesAny name ["lower_arm".toList, "lowerarm".toList,
    "forearm".toList, "arm_lower".toList, "elbow".toList]
  let isUpperArm := matchesAny name ["upper_arm".toList, "upperarm".toList,
      "arm_upper".toList, "humerus".toList] ||
    (strContains name ("arm".toList) && !isLowerArm &&
      !strContains name ("hand".toList) && !strContains name ("wrist".toList))
  let isClavicle := matchesAny name ["clavicle".toList, "collar".toList,
    "shoulder".toList]
  let isHand := matchesAny name ["hand".toList, "wrist".toList]
  let isLowerLeg := matchesAny name ["lower_leg".toList, "lowerleg".toList,
    "calf".toList, "shin".toList, "leg_lower".toList]
  let isUpperLeg := matchesAny name ["upper_leg".toList, "upperleg".toList,
      "thigh".toList, "leg_upper".toList] ||
    (strContains name ("leg".toList) && !isLowerLeg &&
      !strContains name ("foot".toList))
  let isFoot := matchesAny name ["foot".toList, "ankle".toList, "toe".toList]
  let g := acc.1
  let g := if matchesAny name ["pelvis".toList, "hips".toList, "hip".toList]
    then setFirst g .pelvis bone else g
  let g := if matchesAny name ["chest".toList, "spine".toList, "torso".toList]
    then setFirst g .chest bone else g
  let g := if strContains name ("neck".toList) then setFirst g .neck bone else g
  let g := if strContains name ("head".toList) then setFirst g .head bone else g
  let c := acc.2
  let c := if isClavicle then addCand c .clavicle bone else c
  let c := if isUpperArm then addCand c .upperArm bone else c
  let c := if isLowerArm then addCand c .lowerArm bone else c
  let c := if isHand then addCand c .hand bone else c
  let c := if isUpperLeg then addCand c .upperLeg bone else c
  let c := if isLowerLeg then addCand c .lowerLeg bone else c
  let c := if isFoot then addCand c .foot bone else c
  let g :=
    match side with
    | some .left =>
      let g := if isClavicle then setFirst g .clavicleLeft bone else g
      let g := if isUpperArm then setFirst g .upperArmLeft bone else g
      let g := if isLowerArm then setFirst g .lowerArmLeft bone else g
      let g := if isHand then setFirst g .handLeft bone else g
      let g := if isUpperLeg then setFirst g .upperLegLeft bone else g
      let g := if isLowerLeg then setFirst g .lowerLegLeft bone else g
      let g := if isFoot then setFirst g .footLeft bone else g
      g
    | some .right =>
      let g := if isClavicle then setFirst g .clavicleRight bone else g
      let g := if isUpperArm then setFirst g .upperArmRight bone else g
      let g := if isLowerArm then setFirst g .lowerArmRight bone else g
      let g := if isHand then setFirst g .handRight bone else g
      let g := if isUpperLeg then setFirst g .upperLegRight bone else g
      let g := if isLowerLeg then setFirst g .lowerLegRight bone else g
      let g := if isFoot then setFirst g .footRight bone else g
      g
    | none => g
  (g, c)

/-- `assignBySideAxis`: when neither side slot is set and at least two
candidates exist, sort by the side-axis coordinate and take the extremes. -/
noncomputable def assignBySideAxis (sideAxisX : Bool)
    (list : List (BoneData ℝ)) (lk rk : GroupKey)
    (g : GroupKey → Option (BoneData ℝ)) : GroupKey → Option (BoneData ℝ) :=
  if (g lk).isSome || (g rk).isSome || list.length < 2 then g
  else
    let val := fun b : BoneData ℝ =>
      if sideAxisX then b.position.x else b.position.z
    let sorted := List.insertionSort (fun a b => val a ≤ val b) list
    fun k => if k = lk then sorted.head?
      else if k = rk then sorted.getLast? else g k

/-- The children of a bone, in bone-list order (`buildChildMap`). -/
def childrenOf (bones : List (BoneData ℝ)) (pid : ℕ) : List (BoneData ℝ) :=
  bones.filter (fun b => b.parentId == some pid)

/-- The T-pose test of `analyzeRig` for one arm sample: the first child's
offset is mostly horizontal. -/
noncomputable def tPoseCheck (bones : List (BoneData ℝ)) (arm : BoneData ℝ) :
    Bool :=
  match (childrenOf bones arm.id).head? with
  | none => false
  | some child =>
    let dir := vsub child.position arm.position
    let horizontal := Real.sqrt (dir.x * dir.x + dir.z * dir.z)
    decide (horizontal > 0.001) && decide (|dir.y / horizontal| < 0.2)

/-- Result of `analyzeRig` (only the fields the fallback reads). -/
structure RigAnalysis where
  sideAxisX : Bool
  isHumanoid : Bool
  tPoseLikely : Bool
  groups : GroupKey → Option (BoneData ℝ)

/-- `analyzeRig` (aiAnimationService.ts): pick the side axis from the
coordinate spreads, classify every bone by name into group slots and
candidate buckets, fill missing side pairs from the sorted candidates, and
derive the humanoid/T-pose flags. -/
noncomputable def analyzeRig (bones : List (BoneData ℝ)) : RigAnalysis :=
  let xs := bones.map (fun b => b.position.x)
  let zs := bones.map (fun b => b.position.z)
  let spreadX := xs.foldl max 0 - xs.foldl min 0
  let spreadZ := zs.foldl max 0 - zs.foldl min 0
  let sideAxisX := decide (spreadZ ≤ spreadX)
  let folded := bones.foldl classifyStep (fun _ => none, fun _ => [])
  let cands := folded.2
  let g := folded.1
  let g := assignBySideAxis sideAxisX (cands .clavicle) .clavicleLeft .clavicleRight g
  let g := assignBySideAxis sideAxisX (cands .upperArm) .upperArmLeft .upperArmRight g
  let g := assignBySideAxis sideAxisX (cands .lowerArm) .lowerArmLeft .lowerArmRight g
  let g := assignBySideAxis sideAxisX (cands .hand) .handLeft .handRight g
  let g := assignBySideAxis sideAxisX (cands .upperLeg) .upperLegLeft .upperLegRight g
  let g := assignBySideAxis sideAxisX (cands .lowerLeg) .lowerLegLeft .lowerLegRight g
  let g := assignBySideAxis sideAxisX (cands .foot) .footLeft .footRight g
  let isHumanoid := (g .upperArmLeft).isSome || (g .upperArmRight).isSome ||
    (g .upperLegLeft).isSome || (g .upperLegRight).isSome
  let tPoseLikely := ([g .upperArmLeft, g .upperArmRight].filterMap id).any
    (tPoseCheck bones)
  ⟨sideAxisX, isHumanoid, tPoseLikely, g⟩

/-- `lockRootMotion` (aiAnimationService.ts): drop position tracks of
parentless bones and of bones with a central pelvis-like name. -/
def lockRootMotion (tracks : List (AnimationTrack ℝ))
    (bones : List (BoneData ℝ)) : List (AnimationTrack ℝ) :=
  let lockedIds := (bones.filter
    (fun b => b.parentId == none || isCentralPelvisName b.name)).map (·.id)
  if lockedIds.isEmpty then tracks
  else tracks.filter (fun tr =>
    !(tr.property == TrackProp.position && lockedIds.contains tr.boneId))

/-- Quaternion normalization of the conversion: divide by the length when
positive, else substitute the identity. -/
noncomputable def normalizeQuat4 (x y z w : ℝ) : List ℝ :=
  let len := Real.sqrt (x * x + y * y + z * z + w * w)
  if len > 0 then [x / len, y / len, z / len, w / len] else [0, 0, 0, 1]

/-- The rotation-keyframe loop of `convertToAnimationClip`: length-4
rotation arrays only; the frame is `max(0, round(frame))` and the entry is
dropped when that is not finite; `maxFrame` is updated before the
per-component finiteness check, which drops the entry individually; kept
values are normalized and the interpolation keyword defaults to linear. -/
noncomputable def processRotKfs (kfs : List RawKeyframe) (maxFrame : ℝ) :
    List (Keyframe ℝ) × ℝ :=
  match kfs with
  | [] => ([], maxFrame)
  | kf :: rest =>
    match kf.rotation with
    | none => processRotKfs rest maxFrame
    | some rot =>
      if rot.length = 4 then
        match jsFinite? (jsMax0 (jsRound kf.frame)) with
        | none => processRotKfs rest maxFrame
        | some frame =>
          let m1 := max maxFrame frame
          match rot with
          | [a, b, c, d] =>
            match jsFinite? a, jsFinite? b, jsFinite? c, jsFinite? d with
            | some x, some y, some z, some w =>
              let res := processRotKfs rest m1
              (⟨frame, normalizeQuat4 x y z w,
                  kf.interpolation.getD .linear⟩ :: res.1, res.2)
            | _, _, _, _ => processRotKfs rest m1
          | _ => processRotKfs rest m1
      else processRotKfs rest maxFrame

/-- The position-keyframe loop: length-3 position arrays, same frame
handling, finite components kept as-is. -/
noncomputable def processPosKfs (kfs : List RawKeyframe) (maxFrame : ℝ) :
    List (Keyframe ℝ) × ℝ :=
  match kfs with
  | [] => ([], maxFrame)
  | kf :: rest =>
    match kf.position with
    | none => processPosKfs rest maxFrame
    | some pos =>
      if pos.length = 3 then
        match jsFinite? (jsMax0 (jsRound kf.frame)) with
        | none => processPosKfs rest maxFrame
        | some frame =>
          let m1 := max maxFrame frame
          match pos with
          | [a, b, c] =>
            match jsFinite? a, jsFinite? b, jsFinite? c with
            | some x, some y, some z =>
              let res := processPosKfs rest m1
              (⟨frame, [x, y, z],
                  kf.interpolation.getD .linear⟩ :: res.1, res.2)
            | _, _, _ => processPosKfs rest m1
          | _ => processPosKfs rest m1
      else processPosKfs rest maxFrame

/-- `ensureFrameZero`: append a linear keyframe carrying the rest value at
frame 0 unless one exists. -/
noncomputable def ensureFrameZero (keyframes : List (Keyframe ℝ))
    (value : List ℝ) : List (Keyframe ℝ) :=
  if keyframes.any (fun kf => kf.frame == 0) then keyframes
  else keyframes ++ [⟨0, value, .linear⟩]

/-- The bone-name-to-id lookup map (`boneNameToId`): keyed by lowercased
name, later bones overwrite earlier ones. -/
def lookupBoneId (bones : List (BoneData ℝ)) : Option (List Char) → Option ℕ
  | none => none
  | some nm =>
    ((bones.filter (fun b => lcName b.name == lcName nm)).getLast?).map (·.id)

/-- One bone entry of the conversion loop: skip unknown bone names; build
the rotation track (rest-pose frame 0 injected, keyframes sorted) when any
rotation keyframe survived, then likewise the position track, threading
`maxFrame` through both keyframe passes. -/
noncomputable def convertBoneAnim (bones : List (BoneData ℝ))
    (ba : RawBoneAnim) (acc : List (AnimationTrack ℝ) × ℝ) :
    List (AnimationTrack ℝ) × ℝ :=
  match lookupBoneId bones ba.boneName with
  | none => acc
  | some boneId =>
    let restBone := bones.find? (fun b => b.id == boneId)
    let rot := processRotKfs ba.keyframes acc.2
    let acc1 :=
      if rot.1.isEmpty then (acc.1, rot.2)
      else
        let rk :=
          match restBone with
          | some rb => ensureFrameZero rot.1
              [rb.rotation.x, rb.rotation.y, rb.rotation.z, rb.rotation.w]
          | none => rot.1
        (acc.1 ++ [⟨boneId, .rotApplied, sortKeyframes rk⟩], rot.2)
    let pos := processPosKfs ba.keyframes acc1.2
    if pos.1.isEmpty then (acc1.1, pos.2)
    else
      let pk :=
        match restBone with
        | some rb => ensureFrameZero pos.1
            [rb.position.x, rb.position.y, rb.position.z]
        | none => pos.1
      (acc1.1 ++ [⟨boneId, .position, sortKeyframes pk⟩], pos.2)

/-- `Math.round` on the always-finite frame arithmetic of the fallback. -/
noncomputable def jround (x : ℝ) : ℝ := (⌊x + 1 / 2⌋ : ℤ)

/-- First-occurrence deduplication (`Array.from(new Set(...))`). -/
noncomputable def uniqueFirstAux : List ℝ → List ℝ → List ℝ
  | [], _ => []
  | x :: rest, seen =>
    if x ∈ seen then uniqueFirstAux rest seen
    else x :: uniqueFirstAux rest (x :: seen)

/-- `THREE.Quaternion.setFromAxisAngle`. -/
noncomputable def quatFromAxisAngle (axis : Vec3 ℝ) (angle : ℝ) : Quat ℝ :=
  ⟨axis.x * Real.sin (angle / 2), axis.y * Real.sin (angle / 2),
   axis.z * Real.sin (angle / 2), Real.cos (angle / 2)⟩

/-- `THREE.Quaternion.setFromUnitVectors`: cross/dot construction with the
antipodal special case, then normalization. -/
noncomputable def quatFromUnitVectors (f t : Vec3 ℝ) : Quat ℝ :=
  let r := vdot f t + 1
  quatNormalize
    (if r < jsEpsilon then
      if |f.x| > |f.z| then ⟨-f.y, f.x, 0, 0⟩ else ⟨0, -f.z, f.y, 0⟩
    else ⟨f.y * t.z - f.z * t.y, f.z * t.x - f.x * t.z,
      f.x * t.y - f.y * t.x, r⟩)

/-- `buildArmDownRotation`: rotate the arm direction toward a partly
lowered target direction; degenerate directions give the identity. -/
noncomputable def buildArmDownRotation (bone child : BoneData ℝ)
    (downAngle : ℝ) : Quat ℝ :=
  let dir := vsub child.position bone.position
  if vlengthSq dir < 1e-6 then ⟨0, 0, 0, 1⟩
  else
    let dirn := vnormalize dir
    let horizontal : Vec3 ℝ := ⟨dirn.x, 0, dirn.z⟩
    if vlengthSq horizontal < 1e-6 then ⟨0, 0, 0, 1⟩
    else
      let h := vnormalize horizontal
      let target := vnormalize (vadd (vsmul (Real.cos downAngle) h)
        (vsmul (Real.sin downAngle) ⟨0, -1, 0⟩))
      quatFromUnitVectors dirn target

/-- `hasSignificantRotation`: some keyframe's quaternion deviates from the
rest rotation by more than 12°. -/
noncomputable def hasSignificantRotation (track : AnimationTrack ℝ)
    (restRotation : Quat ℝ) : Bool :=
  if track.keyframes.length < 2 then false
  else
    track.keyframes.any fun kf =>
      match kf.value with
      | [x, y, z, w] =>
        let d := min 1 (max (-1)
          |x * restRotation.x + y * restRotation.y + z * restRotation.z +
            w * restRotation.w|)
        decide (2 * Real.arccos d > degToRad 12)
      | _ => false

/-- Replace the keyframes of the first matching rotation track. -/
def replaceFirstRotTrack : List (AnimationTrack ℝ) → ℕ →
    List (Keyframe ℝ) → List (AnimationTrack ℝ)
  | [], _, _ => []
  | tr :: rest, boneId, kfs =>
    if tr.property == TrackProp.rotApplied && tr.boneId == boneId then
      ⟨tr.boneId, tr.property, kfs⟩ :: rest
    else tr :: replaceFirstRotTrack rest boneId kfs

/-- Replace the keyframes of the last matching rotation track (the
`rotationTracks` map keeps the last track per bone, and `applyArmSwing`
mutates that object in place). -/
def replaceLastRotTrack (tracks : List (AnimationTrack ℝ)) (boneId : ℕ)
    (kfs : List (Keyframe ℝ)) : List (AnimationTrack ℝ) :=
  (replaceFirstRotTrack tracks.reverse boneId kfs).reverse

/-- `applyArmSwing` for one side: skip when the bone is missing, when its
existing rotation track already moves significantly, or when no child
fixes the arm direction; otherwise synthesize normalized swing keyframes
over the fallback frames and replace the bone's last rotation track or
push a new one. -/
noncomputable def applyArmSwing (tracks : List (AnimationTrack ℝ))
    (bones : List (BoneData ℝ)) (rig : RigAnalysis) (frames : List ℝ)
    (frameCount downAngle : ℝ) (boneOpt : Option (BoneData ℝ))
    (side : Side) : List (AnimationTrack ℝ) :=
  match boneOpt with
  | none => tracks
  | some bone =>
    let trackOpt := (tracks.filter (fun tr =>
      tr.property == TrackProp.rotApplied && tr.boneId == bone.id)).getLast?
    let restQuat := bone.rotation
    if (match trackOpt with
        | some tr => hasSignificantRotation tr restQuat
        | none => false) then tracks
    else
      let preferredChild :=
        match side with
        | .left => (rig.groups .lowerArmLeft).orElse
            (fun _ => rig.groups .handLeft)
        | .right => (rig.groups .lowerArmRight).orElse
            (fun _ => rig.groups .handRight)
      match preferredChild.orElse (fun _ => (childrenOf bones bone.id).head?) with
      | none => tracks
      | some child =>
        let qDown := buildArmDownRotation bone child downAngle
        let phaseOffset : ℝ := match side with | .left => 0 | .right => Real.pi
        let keyframes := frames.map (fun frame =>
          let phase := if frameCount ≤ 1 then 0
            else frame / (frameCount - 1) * Real.pi * 2
          let swing := Real.sin (phase + phaseOffset) * degToRad 25
          let qSwing := quatFromAxisAngle ⟨0, 1, 0⟩ swing
          let qFinal := quatNormalize (qmul (qmul qSwing qDown) restQuat)
          (⟨frame, [qFinal.x, qFinal.y, qFinal.z, qFinal.w], .linear⟩ :
            Keyframe ℝ))
        match trackOpt with
        | some _ => replaceLastRotTrack tracks bone.id keyframes
        | none => tracks ++ [⟨bone.id, .rotApplied, keyframes⟩]

/-- `applyMotionFallback`: for locomotion prompts on humanoid rigs,
synthesize arm-swing rotation tracks over five evenly spread (deduplicated,
sorted) frames; note that the last base frame list entry `frameCount - 1`
coexists with `round(0.75·frameCount)`, which at `frameCount = 2` rounds to
`frameCount` itself. -/
noncomputable def applyMotionFallback (clip : AnimationClip)
    (bones : List (BoneData ℝ)) (prompt : Option (List Char)) :
    AnimationClip :=
  match prompt with
  | none => clip
  | some p =>
    if detectIntent p ≠ Intent.locomotion then clip
    else
      let rig := analyzeRig bones
      if ¬ rig.isHumanoid then clip
      else
        let frameCount := max 2 clip.frameCount
        let baseFrames := [0, jround (frameCount * 0.25),
          jround (frameCount * 0.5), jround (frameCount * 0.75),
          frameCount - 1]
        let frames := List.insertionSort (fun a b : ℝ => a ≤ b)
          (uniqueFirstAux baseFrames [])
        let downAngle := degToRad (if rig.tPoseLikely then 28 else 20)
        let tracks1 := applyArmSwing clip.tracks bones rig frames frameCount
          downAngle (rig.groups .upperArmLeft) .left
        let tracks2 := applyArmSwing tracks1 bones rig frames frameCount
          downAngle (rig.groups .upperArmRight) .right
        ⟨clip.fps, clip.frameCount, tracks2⟩

/-- `convertToAnimationClip` (aiAnimationService.ts): clamp the fps into
`[1, 120]` (30 when not finite), default the rounded frame count to at
least 2 (60 when not finite), convert every bone entry, fail only when NO
track at all was built, then grow the frame count to `maxFrame + 1` if
needed, lock root motion and apply the locomotion fallback. -/
noncomputable def convertToAnimationClip (data : RawAnimationData)
    (bones : List (BoneData ℝ)) (prompt : Option (List Char)) :
    Option AnimationClip :=
  let fps : ℝ :=
    match jsFinite? data.fps with
    | some x => min 120 (max 1 x)
    | none => 30
  let frameCount0 : ℝ :=
    match jsFinite? data.frameCount with
    | some x => max 2 (⌊x + 1 / 2⌋ : ℤ)
    | none => 60
  let conv := data.bones.foldl (fun acc ba => convertBoneAnim bones ba acc)
    ([], 0)
  if conv.1.isEmpty then none
  else
    let frameCount :=
      if frameCount0 < conv.2 + 1 then conv.2 + 1 else frameCount0
    some (applyMotionFallback
      ⟨fps, frameCount, lockRootMotion conv.1 bones⟩ bones prompt)

/-- The demo skeleton root of the AI-conversion claims: a parentless bone
named hips. -/
noncomputable def demoHips : BoneData ℝ :=
  ⟨0, "hips".toList, none, ⟨0, 1, 0⟩, ⟨0, 0, 0, 1⟩, ⟨1, 1, 1⟩, 1⟩

/-- C7 demo response: a single position-only keyframe on the root bone. -/
noncomputable def demoC7Data : RawAnimationData :=
  ⟨.fin 30, .fin 10,
   [⟨some ("hips".toList),
     [⟨.fin 0, none, some [.fin 0, .fin 1, .fin 0], some .linear⟩]⟩]⟩

/-- Well-formedness of one converted track against a frame bound (the
specification predicate of C10): nonempty sorted keyframes containing frame
0, all frames at most the bound, and — for rotation tracks, whenever every
rest rotation in the skeleton is a unit quaternion — unit quaternion
values. -/
def TrackWF (bones : List (BoneData ℝ)) (m : ℝ) (tr : AnimationTrack ℝ) :
    Prop :=
  tr.keyframes ≠ [] ∧
  (∃ kf ∈ tr.keyframes, kf.frame = 0) ∧
  List.Sorted (fun a b : Keyframe ℝ => a.frame ≤ b.frame) tr.keyframes ∧
  (∀ kf ∈ tr.keyframes, kf.frame ≤ m) ∧
  (tr.property = TrackProp.rotApplied →
    (∀ b ∈ bones, qnormSq b.rotation = 1) →
    ∀ kf ∈ tr.keyframes, ∃ x y z w, kf.value = [x, y, z, w] ∧
      x * x + y * y + z * z + w * w = 1)


/-- Left upper-arm bone of the C10 demo rig. -/
noncomputable def demoArm : BoneData ℝ :=
  ⟨1, "arm_left".toList, some 0, ⟨1, 2, 0⟩, ⟨0, 0, 0, 1⟩, ⟨1, 1, 1⟩, 1⟩

/-- Left hand bone of the C10 demo rig, child of the arm. -/
noncomputable def demoHand : BoneData ℝ :=
  ⟨2, "hand_left".toList, some 1, ⟨2, 2, 0⟩, ⟨0, 0, 0, 1⟩, ⟨1, 1, 1⟩, 1⟩

/-- The C10 demo skeleton: a humanoid-enough rig with a root and a left
arm chain. -/
noncomputable def demoC10Bones : List (BoneData ℝ) :=
  [demoHips, demoArm, demoHand]

/-- The C10 demo response: `frameCount = 2` and one rotation keyframe on
the root at frame 1. -/
noncomputable def demoC10Data : RawAnimationData :=
  ⟨.fin 30, .fin 2,
   [⟨some ("hips".toList),
     [⟨.fin 1, some [.fin 0, .fin 0, .fin 0, .fin 2], none, some .linear⟩]⟩]⟩


/-! ## Theorems -/

/-! ### Claim C8: playback frame advancement -/

/-- Fractional-part view of `jsMod`. -/
theorem jsMod_eq_fract [FloorRing K] (a b : K) (hb : b ≠ 0) :
    jsMod a b = b * Int.fract (a / b) := by
  unfold jsMod Int.fract
  rw [mul_sub, mul_div_cancel₀ a hb]

/-- C8: while playing, every tick advances the frame by `delta * fps`; when
the advanced frame reaches `frameCount` the frame wraps modulo `frameCount`
if looping (landing in `[0, frameCount)`), otherwise it is clamped to
`frameCount` and playback stops; while stopped a tick leaves the timeline
unchanged. -/
theorem C8_playback_state_machine [FloorRing K] (timeline : TimelineState K)
    (frameCount delta : K) :
    (timeline.isPlaying = true →
      (timeline.currentFrame + delta * timeline.fps < frameCount →
        animationTick timeline frameCount delta =
          { timeline with
              currentFrame := timeline.currentFrame + delta * timeline.fps }) ∧
      (frameCount ≤ timeline.currentFrame + delta * timeline.fps →
        timeline.loop = true →
        animationTick timeline frameCount delta =
          { timeline with
              currentFrame :=
                jsMod (timeline.currentFrame + delta * timeline.fps) frameCount } ∧
        (0 < frameCount →
          0 ≤ (animationTick timeline frameCount delta).currentFrame ∧
          (animationTick timeline frameCount delta).currentFrame < frameCount)) ∧
      (frameCount ≤ timeline.currentFrame + delta * timeline.fps →
        timeline.loop = false →
        animationTick timeline frameCount delta =
          { timeline with currentFrame := frameCount, isPlaying := false })) ∧
    (timeline.isPlaying = false →
      animationTick timeline frameCount delta = timeline) := by
  constructor
  · intro hplay
    refine ⟨?_, ?_, ?_⟩
    · intro hlt
      simp [animationTick, hplay, not_le.mpr hlt]
    · intro hge hloop
      have htick : animationTick timeline frameCount delta =
          { timeline with
              currentFrame :=
                jsMod (timeline.currentFrame + delta * timeline.fps) frameCount } := by
        simp [animationTick, hplay, hge, hloop]
      refine ⟨htick, ?_⟩
      intro hpos
      rw [htick]
      constructor
      · simp only [jsMod_eq_fract _ _ hpos.ne']
        exact mul_nonneg hpos.le (Int.fract_nonneg _)
      · simp only [jsMod_eq_fract _ _ hpos.ne']
        calc frameCount * Int.fract ((timeline.currentFrame + delta * timeline.fps) / frameCount)
            < frameCount * 1 := by
              exact mul_lt_mul_of_pos_left (Int.fract_lt_one _) hpos
          _ = frameCount := mul_one frameCount
    · intro hge hloop
      simp [animationTick, hplay, hge, hloop]
  · intro hstop
    simp [animationTick, hstop]

/-- Witness for C8 at a concrete input: playing at frame 5, fps 30, delta 2,
frameCount 60, looping: the frame wraps to `65 % 60 = 5` and stays playing;
a stopped timeline is untouched. -/
theorem C8_playback_witness :
    animationTick (K := ℚ) ⟨5, true, 30, true⟩ 60 2 = ⟨5, true, 30, true⟩ ∧
    animationTick (K := ℚ) ⟨7, false, 30, true⟩ 60 2 = ⟨7, false, 30, true⟩ := by
  constructor
  · have h := (((C8_playback_state_machine (K := ℚ) ⟨5, true, 30, true⟩ 60 2).1
      rfl).2.1 (by norm_num) rfl).1
    rw [h]
    have hmod : jsMod (5 + 2 * 30 : ℚ) 60 = 5 := by
      unfold jsMod
      rw [show ((5 + 2 * 30 : ℚ) / 60) = 13 / 12 by norm_num]
      rw [show ⌊(13 / 12 : ℚ)⌋ = 1 by
        rw [Int.floor_eq_iff]
        norm_num]
      norm_num
    rw [hmod]
  · exact (C8_playback_state_machine (K := ℚ) ⟨7, false, 30, true⟩ 60 2).2 rfl

/-! ### Claim C9: deleting a bone reparents its children -/

/-- With duplicate-free ids, `find?` by id returns the member itself. -/
theorem find?_eq_of_mem_nodup {bones : List (BoneData K)} {d : BoneData K}
    (hmem : d ∈ bones) (hnodup : (bones.map (·.id)).Nodup) :
    bones.find? (fun b => b.id == d.id) = some d := by
  induction bones with
  | nil => cases hmem
  | cons b rest ih =>
      rcases List.mem_cons.mp hmem with h | h
      · subst h
        simp [List.find?_cons]
      · have hbne : b.id ≠ d.id := by
          intro heq
          have : d.id ∈ rest.map (·.id) := List.mem_map_of_mem _ h
          rw [List.map_cons] at hnodup
          exact (List.nodup_cons.mp hnodup).1 (heq ▸ this)
        have := ih h (by
          rw [List.map_cons] at hnodup
          exact (List.nodup_cons.mp hnodup).2)
        simp [List.find?_cons, hbne, this]

/-- In a forest a member bone is never its own parent. -/
theorem no_self_parent {bones : List (BoneData K)} {d : BoneData K}
    (hmem : d ∈ bones) (hnodup : (bones.map (·.id)).Nodup)
    (hforest : Forest bones) : d.parentId ≠ some d.id := by
  intro hself
  obtain ⟨k, hk⟩ := hforest d hmem
  have hstep : parentStep bones (some d.id) = some d.id := by
    simp [parentStep, find?_eq_of_mem_nodup hmem hnodup, hself]
  have hfix : ∀ n, (parentStep bones)^[n] (some d.id) = some d.id := by
    intro n
    induction n with
    | zero => rfl
    | succ n ih => rw [Function.iterate_succ_apply, hstep, ih]
  rw [hfix k] at hk
  cases hk

/-- The parent link of a member bone, as seen by the chain function. -/
theorem parentStep_of_find {bones : List (BoneData K)} {d : BoneData K}
    (hmem : d ∈ bones) (hnodup : (bones.map (·.id)).Nodup) :
    parentStep bones (some d.id) = d.parentId := by
  simp [parentStep, find?_eq_of_mem_nodup hmem hnodup]

theorem reparentTo_id (d b : BoneData K) : (reparentTo d b).id = b.id := by
  unfold reparentTo
  split <;> rfl

/-- Unfolding of one parent-chain step at a live id. -/
theorem parentStep_some (bones : List (BoneData K)) (i : ℕ) :
    parentStep bones (some i) =
      (bones.find? (fun b => b.id == i)).bind (·.parentId) := rfl

/-- `find?` on the deleted-and-reparented list, for a surviving id. -/
theorem find?_deleteCore {d : BoneData K} {i : ℕ} (hne : i ≠ d.id)
    (bones : List (BoneData K)) :
    ((bones.map (reparentTo d)).filter (fun b => b.id != d.id)).find?
        (fun b => b.id == i) =
      (bones.find? (fun b => b.id == i)).map (reparentTo d) := by
  induction bones with
  | nil => rfl
  | cons b rest ih =>
      rw [List.map_cons, List.filter_cons]
      by_cases hbi : b.id = i
      · have hbd' : b.id ≠ d.id := by rw [hbi]; exact hne
        have h1 : ((reparentTo d b).id != d.id) = true := by
          rw [reparentTo_id]; exact bne_iff_ne.mpr hbd'
        have h2 : ((reparentTo d b).id == i) = true := by
          rw [reparentTo_id]; exact beq_iff_eq.mpr hbi
        have h3 : (b.id == i) = true := beq_iff_eq.mpr hbi
        rw [if_pos h1, List.find?_cons_of_pos (p := fun x : BoneData K => x.id == i) _ h2,
          List.find?_cons_of_pos (p := fun x : BoneData K => x.id == i) _ h3,
          Option.map_some']
      · have h3 : (b.id == i) = false := beq_eq_false_iff_ne.mpr hbi
        have h3' : ¬ ((fun (b : BoneData K) => b.id == i) b = true) := by
          simp only [h3]
          exact Bool.false_ne_true
        by_cases hbd : b.id = d.id
        · have h1 : ¬ ((reparentTo d b).id != d.id) = true := by
            rw [reparentTo_id, hbd]; simp
          rw [if_neg h1, List.find?_cons_of_neg (p := fun x : BoneData K => x.id == i) _ h3',
            ih]
        · have h1 : ((reparentTo d b).id != d.id) = true := by
            rw [reparentTo_id]; exact bne_iff_ne.mpr hbd
          have h2 : ¬ ((fun (x : BoneData K) => x.id == i) (reparentTo d b) = true) := by
            show ¬ ((reparentTo d b).id == i) = true
            rw [reparentTo_id, h3]
            exact Bool.false_ne_true
          rw [if_pos h1, List.find?_cons_of_neg (p := fun x : BoneData K => x.id == i) _ h2,
            List.find?_cons_of_neg (p := fun x : BoneData K => x.id == i) _ h3', ih]

/-- Deleting and reparenting leaves exactly the other ids, in order. -/
theorem deleteCore_ids (d : BoneData K) (bones : List (BoneData K)) :
    ((bones.map (reparentTo d)).filter (fun b => b.id != d.id)).map (·.id) =
      (bones.map (·.id)).filter (fun x => x != d.id) := by
  induction bones with
  | nil => rfl
  | cons b rest ih =>
      rw [List.map_cons, List.filter_cons, List.map_cons, List.filter_cons,
        reparentTo_id]
      by_cases hbd : (b.id != d.id) = true
      · rw [if_pos hbd, if_pos hbd, List.map_cons, reparentTo_id, ih]
      · rw [if_neg hbd, if_neg hbd, ih]

/-- Unfolding of `deleteBone` when the bone is present. -/
theorem deleteBone_eq {bones : List (BoneData K)} {d : BoneData K}
    (hmem : d ∈ bones) (hnodup : (bones.map (·.id)).Nodup) :
    deleteBone bones d.id =
      (bones.map (reparentTo d)).filter (fun b => b.id != d.id) := by
  unfold deleteBone
  rw [find?_eq_of_mem_nodup hmem hnodup]
  rfl

/-- One step of the parent chain after deletion, described in terms of the
original chain: the deleted id has no successor, a link that pointed at the
deleted bone is re-routed to the deleted bone's parent, all other links are
unchanged. -/
theorem parentStep_deleteBone {bones : List (BoneData K)} {d : BoneData K}
    (hmem : d ∈ bones) (hnodup : (bones.map (·.id)).Nodup) (i : ℕ) :
    parentStep (deleteBone bones d.id) (some i) =
      if i = d.id then none
      else if parentStep bones (some i) = some d.id then d.parentId
      else parentStep bones (some i) := by
  rw [deleteBone_eq hmem hnodup]
  by_cases hi : i = d.id
  · subst hi
    have hnone : ((bones.map (reparentTo d)).filter (fun b => b.id != d.id)).find?
        (fun b => b.id == d.id) = none := by
      rw [List.find?_eq_none]
      intro x hx
      have hx2 := (List.mem_filter.mp hx).2
      simpa using hx2
    rw [parentStep_some, hnone, if_pos rfl]
    rfl
  · rw [parentStep_some, find?_deleteCore hi bones, parentStep_some,
      if_neg hi]
    cases hfind : bones.find? (fun b => b.id == i) with
    | none => simp
    | some b =>
        show (reparentTo d b).parentId =
          if (some b).bind (·.parentId) = some d.id then d.parentId
          else (some b).bind (·.parentId)
        show (reparentTo d b).parentId =
          if b.parentId = some d.id then d.parentId else b.parentId
        unfold reparentTo
        by_cases hbp : b.parentId = some d.id
        · rw [if_pos hbp, if_pos hbp]
        · rw [if_neg hbp, if_neg hbp]

/-- Core induction: any id whose original parent chain terminates still has a
terminating chain after `deleteBone`. -/
theorem rooted_deleteBone {bones : List (BoneData K)} {d : BoneData K}
    (hmem : d ∈ bones) (hnodup : (bones.map (·.id)).Nodup) :
    ∀ k i, (parentStep bones)^[k] (some i) = none →
      Rooted (deleteBone bones d.id) i := by
  intro k
  induction k using Nat.strong_induction_on with
  | _ k ih =>
      intro i hk
      by_cases hi : i = d.id
      · refine ⟨1, ?_⟩
        simp [Function.iterate_one, parentStep_deleteBone hmem hnodup, hi]
      · cases k with
        | zero => cases hk
        | succ k =>
            rw [Function.iterate_succ_apply] at hk
            cases hp : parentStep bones (some i) with
            | none =>
                refine ⟨1, ?_⟩
                simp [Function.iterate_one, parentStep_deleteBone hmem hnodup,
                  hi, hp]
            | some j =>
                rw [hp] at hk
                by_cases hj : j = d.id
                · subst hj
                  cases k with
                  | zero => cases hk
                  | succ k =>
                      rw [Function.iterate_succ_apply,
                        parentStep_of_find hmem hnodup] at hk
                      cases hdp : d.parentId with
                      | none =>
                          refine ⟨1, ?_⟩
                          simp [Function.iterate_one,
                            parentStep_deleteBone hmem hnodup, hi, hp, hdp]
                      | some m =>
                          rw [hdp] at hk
                          obtain ⟨k', hk'⟩ :=
                            ih k (by omega) m hk
                          refine ⟨k' + 1, ?_⟩
                          rw [Function.iterate_succ_apply,
                            parentStep_deleteBone hmem hnodup]
                          simp only [hi, if_false, hp, hdp, if_pos rfl]
                          exact hk'
                · obtain ⟨k', hk'⟩ := ih k (by omega) j hk
                  refine ⟨k' + 1, ?_⟩
                  rw [Function.iterate_succ_apply,
                    parentStep_deleteBone hmem hnodup]
                  simp only [hi, if_false, hp]
                  rw [if_neg (by simpa using hj)]
                  exact hk'

/-- C9: deleting an existing bone of a duplicate-free forest removes exactly
that bone, reparents each direct child to the deleted bone's parent, keeps
every other bone untouched, leaves no bone referencing the removed id, and
the parent graph remains a forest. -/
theorem C9_deleteBone_reparents (bones : List (BoneData K)) (d : BoneData K)
    (hmem : d ∈ bones) (hnodup : (bones.map (·.id)).Nodup)
    (hforest : Forest bones) :
    (deleteBone bones d.id).map (·.id) =
        (bones.map (·.id)).filter (fun x => x != d.id) ∧
    (∀ b ∈ deleteBone bones d.id, b.parentId ≠ some d.id) ∧
    (∀ b ∈ bones, b.parentId = some d.id →
      ∃ b' ∈ deleteBone bones d.id, b'.id = b.id ∧ b'.parentId = d.parentId) ∧
    (∀ b ∈ bones, b.id ≠ d.id → b.parentId ≠ some d.id →
      ∃ b' ∈ deleteBone bones d.id, b'.id = b.id ∧ b'.parentId = b.parentId) ∧
    Forest (deleteBone bones d.id) := by
  have hd := deleteBone_eq hmem hnodup
  have hselfne := no_self_parent hmem hnodup hforest
  refine ⟨?_, ?_, ?_, ?_, ?_⟩
  · rw [hd, deleteCore_ids]
  · intro b hb
    rw [hd] at hb
    obtain ⟨b0, _hb0, hrep⟩ := List.mem_map.mp (List.mem_filter.mp hb).1
    subst hrep
    unfold reparentTo
    split
    · exact hselfne
    · assumption
  · intro b hb hchild
    refine ⟨reparentTo d b, ?_, reparentTo_id d b, ?_⟩
    · rw [hd]
      refine List.mem_filter.mpr ⟨List.mem_map_of_mem _ hb, ?_⟩
      have : b.id ≠ d.id := by
        intro heq
        have hbd : b = d := by
          have h1 := find?_eq_of_mem_nodup hmem hnodup
          have h2 := find?_eq_of_mem_nodup hb hnodup
          rw [heq] at h2
          rw [h1] at h2
          exact (Option.some_inj.mp h2).symm
        rw [hbd] at hchild
        exact hselfne hchild
      simp [reparentTo_id, this]
    · unfold reparentTo
      rw [if_pos hchild]
  · intro b hb hbne hbp
    refine ⟨reparentTo d b, ?_, reparentTo_id d b, ?_⟩
    · rw [hd]
      refine List.mem_filter.mpr ⟨List.mem_map_of_mem _ hb, ?_⟩
      simp [reparentTo_id, hbne]
    · unfold reparentTo
      rw [if_neg hbp]
  · intro b hb
    rw [hd] at hb
    obtain ⟨b0, hb0, hrep⟩ := List.mem_map.mp (List.mem_filter.mp hb).1
    obtain ⟨k, hk⟩ := hforest b0 hb0
    have : b.id = b0.id := by rw [← hrep, reparentTo_id]
    rw [this]
    exact rooted_deleteBone hmem hnodup k b0.id hk

/-- The demo chain is a forest. -/
theorem demoChain_forest : Forest demoChain := by
  intro b hb
  fin_cases hb
  · exact ⟨1, by decide⟩
  · exact ⟨2, by decide⟩
  · exact ⟨3, by decide⟩

/-- Witness for C9: deleting the middle bone of the demo chain keeps ids
`[0, 2]`, reparents bone 2 to bone 0, and the result is again a forest. -/
theorem C9_deleteBone_witness :
    (deleteBone demoChain 1).map (·.id) = [0, 2] ∧
    Forest (deleteBone demoChain 1) := by
  have hmem : demoChain[1] ∈ demoChain := by decide
  have h := C9_deleteBone_reparents demoChain demoChain[1] hmem (by decide)
    demoChain_forest
  exact ⟨h.1, h.2.2.2.2⟩

/-! ### Claim C3: cycle prevention on reparenting

The store mutation `setBoneParent` itself performs no validation; the
ancestor-walk guard lives in the hierarchy panel's drop handler. -/

/-- Counterexample to C3 as stated: the store's `setBoneParent` happily sets
bone 0's parent to its own child, bone 1.  The mutation takes effect (it is
not rejected) and the resulting parent graph contains a two-cycle, so it is
no longer acyclic. -/
theorem C3_setBoneParent_cycle_counterexample :
    setBoneParent demoPair 0 (some 1) ≠ demoPair ∧
    ¬ Forest (setBoneParent demoPair 0 (some 1)) := by
  constructor
  · decide
  · intro hf
    obtain ⟨k, hk⟩ := hf ⟨0, ['a'], some 1, ⟨0,0,0⟩, ⟨0,0,0,1⟩, ⟨1,1,1⟩, 1⟩
      (by decide)
    have hcyc : ∀ n, (parentStep (setBoneParent demoPair 0 (some 1)))^[n]
        (some 0) = some 0 ∨
        (parentStep (setBoneParent demoPair 0 (some 1)))^[n] (some 0) = some 1 := by
      intro n
      induction n with
      | zero => exact Or.inl rfl
      | succ n ih =>
          rw [Function.iterate_succ_apply']
          rcases ih with h | h <;> rw [h]
          · right
            decide
          · left
            decide
    rcases hcyc k with h | h <;> rw [hk] at h <;> cases h

/-- `updateBoneIn` with an id that does not occur leaves the list unchanged. -/
theorem updateBoneIn_of_find?_none {bones : List (BoneData K)} {i : ℕ}
    (h : bones.find? (fun b => b.id == i) = none) (f : BoneData K → BoneData K) :
    updateBoneIn bones i f = bones := by
  induction bones with
  | nil => rfl
  | cons b rest ih =>
      rw [List.find?_cons] at h
      by_cases hb : b.id = i
      · rw [beq_iff_eq.mpr hb] at h
        cases h
      · rw [beq_eq_false_iff_ne.mpr hb] at h
        rw [updateBoneIn, if_neg hb, ih h]

/-- `find?` by a different id is unaffected by an id-preserving update. -/
theorem find?_updateBoneIn_ne {bones : List (BoneData K)} {i j : ℕ}
    {f : BoneData K → BoneData K} (hf : ∀ b, (f b).id = b.id) (hij : i ≠ j) :
    (updateBoneIn bones j f).find? (fun b => b.id == i) =
      bones.find? (fun b => b.id == i) := by
  induction bones with
  | nil => rfl
  | cons b rest ih =>
      rw [updateBoneIn]
      by_cases hb : b.id = j
      · rw [if_pos hb]
        have h1 : ¬ ((fun (x : BoneData K) => x.id == i) (f b) = true) := by
          show ¬ ((f b).id == i) = true
          rw [hf b, hb]
          simp [Ne.symm hij]
        have h2 : ¬ ((fun (x : BoneData K) => x.id == i) b = true) := by
          show ¬ (b.id == i) = true
          rw [hb]
          simp [Ne.symm hij]
        rw [List.find?_cons_of_neg (p := fun x : BoneData K => x.id == i) _ h1,
          List.find?_cons_of_neg (p := fun x : BoneData K => x.id == i) _ h2]
      · rw [if_neg hb]
        by_cases hbi : b.id = i
        · have h1 : ((fun (x : BoneData K) => x.id == i) b = true) :=
            beq_iff_eq.mpr hbi
          rw [List.find?_cons_of_pos (p := fun x : BoneData K => x.id == i) _ h1,
            List.find?_cons_of_pos (p := fun x : BoneData K => x.id == i) _ h1]
        · have h1 : ¬ ((fun (x : BoneData K) => x.id == i) b = true) := by
            simp [hbi]
          rw [List.find?_cons_of_neg (p := fun x : BoneData K => x.id == i) _ h1,
            List.find?_cons_of_neg (p := fun x : BoneData K => x.id == i) _ h1, ih]

/-- `find?` by the updated id returns the updated bone. -/
theorem find?_updateBoneIn_self {bones : List (BoneData K)} {j : ℕ}
    {b0 : BoneData K} {f : BoneData K → BoneData K}
    (hf : ∀ b, (f b).id = b.id)
    (h : bones.find? (fun b => b.id == j) = some b0) :
    (updateBoneIn bones j f).find? (fun b => b.id == j) = some (f b0) := by
  induction bones with
  | nil => cases h
  | cons b rest ih =>
      rw [updateBoneIn]
      by_cases hb : b.id = j
      · rw [List.find?_cons_of_pos (p := fun x : BoneData K => x.id == j) _
          (beq_iff_eq.mpr hb)] at h
        have hb0 : b = b0 := Option.some_inj.mp h
        subst hb0
        rw [if_pos hb]
        have h1 : ((fun (x : BoneData K) => x.id == j) (f b) = true) := by
          show ((f b).id == j) = true
          rw [hf b]
          exact beq_iff_eq.mpr hb
        rw [List.find?_cons_of_pos (p := fun x : BoneData K => x.id == j) _ h1]
      · rw [List.find?_cons_of_neg (p := fun x : BoneData K => x.id == j) _
          (by simp [hb])] at h
        rw [if_neg hb,
          List.find?_cons_of_neg (p := fun x : BoneData K => x.id == j) _
            (by simp [hb]), ih h]

/-- Iterating the parent chain from `none` stays `none`. -/
theorem parentStep_iterate_none (bones : List (BoneData K)) (n : ℕ) :
    (parentStep bones)^[n] none = none := by
  induction n with
  | zero => rfl
  | succ n ih => rw [Function.iterate_succ_apply]; exact ih

/-- Id-preserving updates do not change the parent chain at other ids. -/
theorem parentStep_setBoneParent_ne {bones : List (BoneData K)} {i dId : ℕ}
    {pid : Option ℕ} (hij : i ≠ dId) :
    parentStep (setBoneParent bones dId pid) (some i) =
      parentStep bones (some i) := by
  rw [parentStep_some, parentStep_some, setBoneParent,
    find?_updateBoneIn_ne (f := fun b => { b with parentId := pid })
      (fun _ => rfl) hij]

/-- After `setBoneParent`, the dragged id's parent is the new parent id. -/
theorem parentStep_setBoneParent_self {bones : List (BoneData K)} {dId : ℕ}
    {pid : Option ℕ} {db : BoneData K}
    (hfound : bones.find? (fun b => b.id == dId) = some db) :
    parentStep (setBoneParent bones dId pid) (some dId) = pid := by
  rw [parentStep_some, setBoneParent,
    find?_updateBoneIn_self (f := fun b => { b with parentId := pid })
      (fun _ => rfl) hfound]
  rfl

/-- A successful (clean) ancestor walk certifies that the chain from the
visited bone terminates without passing through the dragged id.  Requires the
dragged id to actually resolve to a bone, so that a dangling link in the chain
cannot silently be the dragged id. -/
theorem ancestorHits_clean {bones : List (BoneData K)} {dId : ℕ}
    {db : BoneData K} (hnodup : (bones.map (·.id)).Nodup)
    (hfound : bones.find? (fun b => b.id == dId) = some db) :
    ∀ fuel (bone : BoneData K), bone ∈ bones →
      ancestorHits bones dId fuel (some bone) = some false →
      (∃ k, (parentStep bones)^[k] (some bone.id) = none) ∧
      (∀ j, (parentStep bones)^[j] (some bone.id) ≠ some dId) := by
  intro fuel
  induction fuel with
  | zero =>
      intro bone _ h
      cases h
  | succ fuel ih =>
      intro bone hb h
      rw [ancestorHits] at h
      by_cases hid : bone.id = dId
      · rw [if_pos hid] at h
        cases h
      · rw [if_neg hid] at h
        have hstep : parentStep bones (some bone.id) = bone.parentId := by
          rw [parentStep_some, find?_eq_of_mem_nodup hb hnodup]
          rfl
        cases hpar : bone.parentId with
        | none =>
            refine ⟨⟨1, by rw [Function.iterate_one, hstep, hpar]⟩, ?_⟩
            intro j
            cases j with
            | zero =>
                simp only [Function.iterate_zero, id]
                intro hc
                exact hid (Option.some_inj.mp hc)
            | succ j =>
                rw [Function.iterate_succ_apply, hstep, hpar,
                  parentStep_iterate_none]
                intro hc
                cases hc
        | some pIdx =>
            have hpred : (fun b : BoneData K => some b.id == bone.parentId) =
                (fun b : BoneData K => b.id == pIdx) := by
              funext x
              rw [hpar]
              simp
            rw [hpred] at h
            cases hfind2 : bones.find? (fun b => b.id == pIdx) with
            | none =>
                have hpne : pIdx ≠ dId := by
                  intro he
                  rw [he, hfound] at hfind2
                  cases hfind2
                rw [hfind2] at h
                refine ⟨⟨2, ?_⟩, ?_⟩
                · have h2 : (parentStep bones)^[2] (some bone.id) =
                      parentStep bones (parentStep bones (some bone.id)) := rfl
                  rw [h2, hstep, hpar, parentStep_some, hfind2]
                  rfl
                · intro j
                  cases j with
                  | zero =>
                      simp only [Function.iterate_zero, id]
                      intro hc
                      exact hid (Option.some_inj.mp hc)
                  | succ j =>
                      rw [Function.iterate_succ_apply, hstep, hpar]
                      cases j with
                      | zero =>
                          simp only [Function.iterate_zero, id]
                          intro hc
                          exact hpne (Option.some_inj.mp hc)
                      | succ j =>
                          rw [Function.iterate_succ_apply, parentStep_some,
                            hfind2]
                          rw [show (Option.bind none
                              (fun b : BoneData K => b.parentId)) = none from rfl,
                            parentStep_iterate_none]
                          intro hc
                          cases hc
            | some pb =>
                rw [hfind2] at h
                have hpb_mem : pb ∈ bones := List.mem_of_find?_eq_some hfind2
                have hpb_id : pb.id = pIdx := by
                  have := List.find?_some hfind2
                  exact beq_iff_eq.mp this
                obtain ⟨⟨k, hk⟩, havoid⟩ := ih pb hpb_mem h
                refine ⟨⟨k + 1, ?_⟩, ?_⟩
                · rw [Function.iterate_succ_apply, hstep, hpar, ← hpb_id]
                  exact hk
                · intro j
                  cases j with
                  | zero =>
                      simp only [Function.iterate_zero, id]
                      intro hc
                      exact hid (Option.some_inj.mp hc)
                  | succ j =>
                      rw [Function.iterate_succ_apply, hstep, hpar, ← hpb_id]
                      exact havoid j

/-- If the chain from `x` terminates without passing through the dragged id,
the same chain survives the reparenting of the dragged bone. -/
theorem rooted_of_clean_chain {bones : List (BoneData K)} {dId : ℕ}
    {pid : Option ℕ} :
    ∀ k x, (parentStep bones)^[k] (some x) = none →
      (∀ j, (parentStep bones)^[j] (some x) ≠ some dId) →
      Rooted (setBoneParent bones dId pid) x := by
  intro k
  induction k with
  | zero =>
      intro x h _
      cases h
  | succ k ih =>
      intro x hk havoid
      have hxne : x ≠ dId := by
        intro he
        exact havoid 0 (by rw [Function.iterate_zero, id, he])
      have hstep := @parentStep_setBoneParent_ne K _ bones x dId pid hxne
      rw [Function.iterate_succ_apply] at hk
      cases hp : parentStep bones (some x) with
      | none => exact ⟨1, by rw [Function.iterate_one, hstep, hp]⟩
      | some y =>
          rw [hp] at hk
          have havoid' : ∀ j, (parentStep bones)^[j] (some y) ≠ some dId := by
            intro j hj
            exact havoid (j + 1)
              (by rw [Function.iterate_succ_apply, hp]; exact hj)
          obtain ⟨k', hk'⟩ := ih y hk havoid'
          exact ⟨k' + 1, by
            rw [Function.iterate_succ_apply, hstep, hp]
            exact hk'⟩

/-- Core induction for C3: after a guarded reparent, every id whose original
chain terminated is still rooted. -/
theorem rooted_setBoneParent {bones : List (BoneData K)} {dId : ℕ}
    {target : BoneData K} {db : BoneData K}
    (hfound : bones.find? (fun b => b.id == dId) = some db)
    (hterm : ∃ k, (parentStep bones)^[k] (some target.id) = none)
    (havoid : ∀ j, (parentStep bones)^[j] (some target.id) ≠ some dId) :
    ∀ k i, (parentStep bones)^[k] (some i) = none →
      Rooted (setBoneParent bones dId (some target.id)) i := by
  intro k
  induction k using Nat.strong_induction_on with
  | _ k ih =>
      intro i hk
      by_cases hi : i = dId
      · subst hi
        obtain ⟨kt, hkt⟩ := hterm
        obtain ⟨k', hk'⟩ := rooted_of_clean_chain kt target.id hkt havoid
        refine ⟨k' + 1, ?_⟩
        rw [Function.iterate_succ_apply, parentStep_setBoneParent_self hfound]
        exact hk'
      · cases k with
        | zero => cases hk
        | succ k =>
            rw [Function.iterate_succ_apply] at hk
            have hstep := @parentStep_setBoneParent_ne K _ bones i dId
              (some target.id) hi
            cases hp : parentStep bones (some i) with
            | none => exact ⟨1, by rw [Function.iterate_one, hstep, hp]⟩
            | some j =>
                rw [hp] at hk
                obtain ⟨k', hk'⟩ := ih k (by omega) j hk
                exact ⟨k' + 1, by
                  rw [Function.iterate_succ_apply, hstep, hp]
                  exact hk'⟩

/-- Id-preserving update keeps the id list (in order). -/
theorem updateBoneIn_ids {bones : List (BoneData K)} {j : ℕ}
    {f : BoneData K → BoneData K} (hf : ∀ b, (f b).id = b.id) :
    (updateBoneIn bones j f).map (·.id) = bones.map (·.id) := by
  induction bones with
  | nil => rfl
  | cons b rest ih =>
      rw [updateBoneIn]
      by_cases hb : b.id = j
      · rw [if_pos hb, List.map_cons, List.map_cons, hf]
      · rw [if_neg hb, List.map_cons, List.map_cons, ih]

/-- C3 (amended): the no-cycle protection lives in the hierarchy panel's drop
handler, not in the store mutation.  Dropping a bone onto itself or onto one
of its own descendants leaves the skeleton unchanged, and any drop processed
by the handler keeps the parent graph a forest.  (The bare store mutation
`setBoneParent` performs no such check, see the counterexample.) -/
theorem C3_handleDrop_preserves_forest (bones : List (BoneData K)) (dId : ℕ)
    (target : BoneData K) (fuel : ℕ) (htmem : target ∈ bones)
    (hnodup : (bones.map (·.id)).Nodup) (hforest : Forest bones) :
    Forest (handleDrop bones dId target fuel) ∧
    (dId = target.id → handleDrop bones dId target fuel = bones) ∧
    (ancestorHits bones dId fuel (some target) = some true →
      handleDrop bones dId target fuel = bones) := by
  refine ⟨?_, ?_, ?_⟩
  · unfold handleDrop
    by_cases hne : dId ≠ target.id
    · rw [if_pos hne]
      cases hwalk : ancestorHits bones dId fuel (some target) with
      | none => exact hforest
      | some res =>
          cases res with
          | true => exact hforest
          | false =>
              show Forest (setBoneParent bones dId (some target.id))
              cases hfound : bones.find? (fun b => b.id == dId) with
              | none =>
                  rw [setBoneParent, updateBoneIn_of_find?_none hfound]
                  exact hforest
              | some db =>
                  obtain ⟨hterm, havoid⟩ :=
                    ancestorHits_clean hnodup hfound fuel target htmem hwalk
                  intro b' hb'
                  have hid : b'.id ∈ bones.map (·.id) := by
                    rw [← @updateBoneIn_ids K _ bones dId
                      (fun b => { b with parentId := some target.id })
                      (fun _ => rfl)]
                    exact List.mem_map_of_mem _ hb'
                  obtain ⟨b0, hb0, hbid⟩ := List.mem_map.mp hid
                  obtain ⟨k, hk⟩ := hforest b0 hb0
                  rw [← hbid]
                  exact rooted_setBoneParent hfound hterm havoid k b0.id hk
    · rw [if_neg hne]
      exact hforest
  · intro heq
    unfold handleDrop
    rw [if_neg (by simp [heq])]
  · intro hwalk
    unfold handleDrop
    by_cases hne : dId ≠ target.id
    · rw [if_pos hne, hwalk]
    · rw [if_neg hne]

/-- Witness for C3: on the demo chain, dropping leaf bone 2 onto the root
keeps the hierarchy a forest, and dropping root bone 0 onto its descendant
bone 2 is rejected (the skeleton is unchanged). -/
theorem C3_handleDrop_witness :
    Forest (handleDrop demoChain 2
      ⟨0, ['r'], none, ⟨0,0,0⟩, ⟨0,0,0,1⟩, ⟨1,1,1⟩, 1⟩ 5) ∧
    handleDrop demoChain 0
      ⟨2, ['t'], some 1, ⟨0,2,0⟩, ⟨0,0,0,1⟩, ⟨1,1,1⟩, 1⟩ 5 = demoChain := by
  constructor
  · exact (C3_handleDrop_preserves_forest demoChain 2
      ⟨0, ['r'], none, ⟨0,0,0⟩, ⟨0,0,0,1⟩, ⟨1,1,1⟩, 1⟩ 5 (by decide) (by decide)
      demoChain_forest).1
  · exact (C3_handleDrop_preserves_forest demoChain 0
      ⟨2, ['t'], some 1, ⟨0,2,0⟩, ⟨0,0,0,1⟩, ⟨1,1,1⟩, 1⟩ 5 (by decide) (by decide)
      demoChain_forest).2.2 (by decide)

/-! ### Claim C5: world/local round-trip -/

/-- C5: converting a bone's world transform to parent-local (as both skeleton
builders do) and back with the same parent world transform reproduces the
original world position and rotation exactly, provided the parent's world
rotation is a unit quaternion; and the conversion formula is identical at the
live call site and the export call site. -/
theorem C5_world_local_roundtrip (parentPos worldPos : Vec3 K)
    (parentRot worldRot : Quat K) (h : qnormSq parentRot = 1) :
    localToWorldPos parentPos parentRot
        (buildThreeSkeleton_localPos parentPos parentRot worldPos) = worldPos ∧
    localToWorldRot parentRot
        (buildThreeSkeleton_localRot parentRot worldRot) = worldRot ∧
    buildThreeSkeleton_localPos parentPos parentRot worldPos =
      buildExportSkeleton_localPos parentPos parentRot worldPos ∧
    buildThreeSkeleton_localRot parentRot worldRot =
      buildExportSkeleton_localRot parentRot worldRot := by
  obtain ⟨px, py, pz⟩ := parentPos
  obtain ⟨wx, wy, wz⟩ := worldPos
  obtain ⟨qx, qy, qz, qw⟩ := parentRot
  obtain ⟨rx, ry, rz, rw⟩ := worldRot
  unfold qnormSq at h
  simp only at h
  refine ⟨?_, ?_, rfl, rfl⟩
  · simp only [localToWorldPos, buildThreeSkeleton_localPos, applyQuat, qconj,
      vadd, vsub, Vec3.mk.injEq]
    refine ⟨?_, ?_, ?_⟩
    · linear_combination (-4 * (qx * (qx * (wx - px) + qy * (wy - py) +
        qz * (wz - pz)) - (wx - px) * (qx * qx + qy * qy + qz * qz))) * h
    · linear_combination (-4 * (qy * (qx * (wx - px) + qy * (wy - py) +
        qz * (wz - pz)) - (wy - py) * (qx * qx + qy * qy + qz * qz))) * h
    · linear_combination (-4 * (qz * (qx * (wx - px) + qy * (wy - py) +
        qz * (wz - pz)) - (wz - pz) * (qx * qx + qy * qy + qz * qz))) * h
  · simp only [localToWorldRot, buildThreeSkeleton_localRot, qmul, qconj,
      Quat.mk.injEq]
    refine ⟨?_, ?_, ?_, ?_⟩
    · linear_combination rx * h
    · linear_combination ry * h
    · linear_combination rz * h
    · linear_combination rw * h

/-- Witness for C5 at concrete rational data: parent at `(1,2,3)` with unit
rotation `(1/2,1/2,1/2,1/2)`, world transform `(4,5,6)` and rotation
`(0,3/5,4/5,0)` round-trip exactly. -/
theorem C5_world_local_witness :
    localToWorldPos (K := ℚ) ⟨1,2,3⟩ ⟨1/2,1/2,1/2,1/2⟩
        (buildThreeSkeleton_localPos ⟨1,2,3⟩ ⟨1/2,1/2,1/2,1/2⟩ ⟨4,5,6⟩) =
      ⟨4,5,6⟩ ∧
    localToWorldRot (K := ℚ) ⟨1/2,1/2,1/2,1/2⟩
        (buildThreeSkeleton_localRot ⟨1/2,1/2,1/2,1/2⟩ ⟨0,3/5,4/5,0⟩) =
      ⟨0,3/5,4/5,0⟩ := by
  have h := C5_world_local_roundtrip (K := ℚ) ⟨1,2,3⟩ ⟨4,5,6⟩
    ⟨1/2,1/2,1/2,1/2⟩ ⟨0,3/5,4/5,0⟩ (by norm_num [qnormSq])
  exact ⟨h.1, h.2.1⟩

/-! ### Claim C4: per-vertex skin reduction -/

/-- Sum of a list of nonnegative entries is zero only if every entry is. -/
theorem all_zero_of_sum_zero {l : List K} (hn : ∀ x ∈ l, 0 ≤ x)
    (h : l.sum = 0) : ∀ x ∈ l, x = 0 := by
  induction l with
  | nil =>
      intro x hx
      cases hx
  | cons a rest ih =>
      rw [List.sum_cons] at h
      have ha : 0 ≤ a := hn a (List.mem_cons_self a rest)
      have hr : 0 ≤ rest.sum :=
        List.sum_nonneg (fun x hx => hn x (List.mem_cons_of_mem _ hx))
      have ha0 : a = 0 := by linarith
      intro x hx
      rcases List.mem_cons.mp hx with rfl | hx
      · exact ha0
      · exact ih (fun y hy => hn y (List.mem_cons_of_mem _ hy)) (by linarith) x hx

/-- Dividing each summand divides the sum. -/
theorem sum_map_div (l : List (ℕ × K)) (c : K) :
    (l.map (fun e => e.2 / c)).sum = (l.map (·.2)).sum / c := by
  induction l with
  | nil => simp
  | cons a rest ih =>
      rw [List.map_cons, List.map_cons, List.sum_cons, List.sum_cons, ih,
        add_div]

/-- The weight-sorted list is a permutation of the input. -/
theorem sortByWeightDesc_perm (l : List (ℕ × K)) :
    List.Perm (sortByWeightDesc l) l :=
  List.perm_insertionSort _ l

/-- The weight-sorted list is sorted by descending weight. -/
theorem sortByWeightDesc_sorted (l : List (ℕ × K)) :
    (sortByWeightDesc l).Sorted (fun a b => b.2 ≤ a.2) := by
  have ht : IsTotal (ℕ × K) (fun a b : ℕ × K => b.2 ≤ a.2) :=
    ⟨fun a b => le_total b.2 a.2⟩
  have htr : IsTrans (ℕ × K) (fun a b : ℕ × K => b.2 ≤ a.2) :=
    ⟨fun a b c h1 h2 => le_trans h2 h1⟩
  exact List.sorted_insertionSort _ l

/-- C4: for every candidate weight list with nonnegative weights, the
per-vertex reduction used by the skeleton binder produces exactly 4
`(boneIndex, weight)` pairs whose weights sum exactly to 1; the kept entries
are the 4 of largest weight (every dropped weight is at most every kept
weight); if the total weight is zero the vertex is assigned bone 0 with
weight 1 (and zero-weight padding); and the live and export call sites
compute the identical reduction. -/
theorem C4_skin_reduction (weights : List (ℕ × K))
    (hn : ∀ p ∈ weights, 0 ≤ p.2) :
    (createSkinnedMesh_reduce weights).length = 4 ∧
    ((createSkinnedMesh_reduce weights).map (·.2)).sum = 1 ∧
    (∀ a ∈ (sortByWeightDesc weights).take 4,
      ∀ b ∈ (sortByWeightDesc weights).drop 4, b.2 ≤ a.2) ∧
    ((weights.map (·.2)).sum = 0 →
      (createSkinnedMesh_reduce weights).head? = some (0, 1) ∧
      ∀ p ∈ (createSkinnedMesh_reduce weights).tail, p.2 = 0) ∧
    createSkinnedMesh_reduce weights = createExportSkinnedMesh_reduce weights := by
  have hsortnn : ∀ p ∈ sortByWeightDesc weights, 0 ≤ p.2 := by
    intro p hp
    exact hn p ((sortByWeightDesc_perm weights).mem_iff.mp hp)
  have htakelen : ((sortByWeightDesc weights).take 4).length ≤ 4 := by
    rw [List.length_take]
    omega
  have hpadlen :
      (((sortByWeightDesc weights).take 4) ++
        List.replicate (4 - ((sortByWeightDesc weights).take 4).length)
          (0, (0 : K))).length = 4 := by
    rw [List.length_append, List.length_replicate]
    omega
  have hpadnn : ∀ p ∈ ((sortByWeightDesc weights).take 4) ++
      List.replicate (4 - ((sortByWeightDesc weights).take 4).length)
        (0, (0 : K)), 0 ≤ p.2 := by
    intro p hp
    rcases List.mem_append.mp hp with hp | hp
    · exact hsortnn p (List.mem_of_mem_take hp)
    · rw [List.eq_of_mem_replicate hp]
  have hreduce : createSkinnedMesh_reduce weights =
      if 0 < ((((sortByWeightDesc weights).take 4) ++
          List.replicate (4 - ((sortByWeightDesc weights).take 4).length)
            (0, (0 : K))).map (fun p : ℕ × K => p.2)).sum then
        (((sortByWeightDesc weights).take 4) ++
          List.replicate (4 - ((sortByWeightDesc weights).take 4).length)
            (0, (0 : K))).map (fun e : ℕ × K => (e.1, e.2 /
              ((((sortByWeightDesc weights).take 4) ++
                List.replicate (4 - ((sortByWeightDesc weights).take 4).length)
                  (0, (0 : K))).map (fun p : ℕ × K => p.2)).sum))
      else
        match (((sortByWeightDesc weights).take 4) ++
          List.replicate (4 - ((sortByWeightDesc weights).take 4).length)
            (0, (0 : K))) with
        | [] => []
        | _ :: rest => (0, (1 : K)) :: rest := rfl
  set padded := ((sortByWeightDesc weights).take 4) ++
    List.replicate (4 - ((sortByWeightDesc weights).take 4).length)
      (0, (0 : K)) with hpadded
  refine ⟨?_, ?_, ?_, ?_, rfl⟩
  · rw [hreduce]
    by_cases htot : 0 < (padded.map (fun p : ℕ × K => p.2)).sum
    · rw [if_pos htot, List.length_map, hpadlen]
    · rw [if_neg htot]
      cases hpc : padded with
      | nil =>
          rw [hpc] at hpadlen
          cases hpadlen
      | cons a rest =>
          show (((0, (1:K)) :: rest)).length = 4
          rw [hpc] at hpadlen
          rw [List.length_cons] at hpadlen ⊢
          omega
  · rw [hreduce]
    by_cases htot : 0 < (padded.map (fun p : ℕ × K => p.2)).sum
    · rw [if_pos htot]
      have hmm : (padded.map (fun e : ℕ × K => (e.1, e.2 / (padded.map (fun p : ℕ × K => p.2)).sum))).map
          (fun p : ℕ × K => p.2) = padded.map (fun e : ℕ × K => e.2 / (padded.map (fun p : ℕ × K => p.2)).sum) := by
        rw [List.map_map]
        rfl
      show ((padded.map (fun e : ℕ × K => (e.1, e.2 / (padded.map (fun p : ℕ × K => p.2)).sum))).map
          (fun p : ℕ × K => p.2)).sum = 1
      rw [hmm, sum_map_div, div_self htot.ne']
    · rw [if_neg htot]
      have hsum0 : (padded.map (fun p : ℕ × K => p.2)).sum = 0 := by
        have := List.sum_nonneg (l := padded.map (fun p : ℕ × K => p.2)) (by
          intro x hx
          obtain ⟨q, hq, rfl⟩ := List.mem_map.mp hx
          exact hpadnn q hq)
        cases lt_or_eq_of_le this with
        | inl hlt => exact absurd hlt htot
        | inr heq => exact heq.symm
      have hall0 : ∀ x ∈ padded.map (fun p : ℕ × K => p.2), x = 0 :=
        all_zero_of_sum_zero (by
          intro x hx
          obtain ⟨q, hq, rfl⟩ := List.mem_map.mp hx
          exact hpadnn q hq) hsum0
      cases hpc : padded with
      | nil =>
          rw [hpc] at hpadlen
          cases hpadlen
      | cons a rest =>
          show ((((0, (1:K)) :: rest)).map (·.2)).sum = 1
          rw [List.map_cons, List.sum_cons]
          have : ∀ p ∈ rest, p.2 = 0 := by
            intro p hp
            exact hall0 p.2 (by
              rw [hpc]
              exact List.mem_map_of_mem _ (List.mem_cons_of_mem _ hp))
          have hrest : (rest.map (·.2)).sum = 0 := by
            rw [List.sum_eq_zero]
            intro x hx
            obtain ⟨q, hq, rfl⟩ := List.mem_map.mp hx
            exact this q hq
          rw [hrest]
          norm_num
  · intro a ha b hb
    exact (sortByWeightDesc_sorted weights).rel_of_mem_take_of_mem_drop ha hb
  · intro hws
    have hall0w : ∀ p ∈ weights, p.2 = 0 := by
      intro p hp
      exact all_zero_of_sum_zero (l := weights.map (·.2)) (by
        intro x hx
        obtain ⟨q, hq, rfl⟩ := List.mem_map.mp hx
        exact hn q hq) hws p.2 (List.mem_map_of_mem _ hp)
    have hpad0 : ∀ p ∈ padded, p.2 = 0 := by
      intro p hp
      rcases List.mem_append.mp hp with hp | hp
      · exact hall0w p ((sortByWeightDesc_perm weights).mem_iff.mp
          (List.mem_of_mem_take hp))
      · rw [List.eq_of_mem_replicate hp]
    have htot : ¬ 0 < (padded.map (fun p : ℕ × K => p.2)).sum := by
      have : (padded.map (fun p : ℕ × K => p.2)).sum = 0 := by
        rw [List.sum_eq_zero]
        intro x hx
        obtain ⟨q, hq, rfl⟩ := List.mem_map.mp hx
        exact hpad0 q hq
      rw [this]
      exact lt_irrefl 0
    rw [hreduce, if_neg htot]
    cases hpc : padded with
    | nil =>
        rw [hpc] at hpadlen
        cases hpadlen
    | cons a rest =>
        constructor
        · rfl
        · intro p hp
          exact hpad0 p (by
            rw [hpc]
            exact List.mem_cons_of_mem _ (by simpa using hp))

/-- Witness for C4 on a concrete list of six nonnegative weights: the
reduction keeps four pairs summing to 1, and the zero-total fallback yields
bone 0 at weight 1. -/
theorem C4_skin_reduction_witness :
    (createSkinnedMesh_reduce (K := ℚ)
        [(0, 1/2), (1, 1/4), (2, 1/8), (3, 1/16), (4, 1/32), (5, 1/32)]).length = 4 ∧
    ((createSkinnedMesh_reduce (K := ℚ)
        [(0, 1/2), (1, 1/4), (2, 1/8), (3, 1/16), (4, 1/32), (5, 1/32)]).map
      (·.2)).sum = 1 ∧
    (createSkinnedMesh_reduce (K := ℚ) [(7, 0)]).head? = some (0, 1) := by
  have h1 := C4_skin_reduction (K := ℚ)
    [(0, 1/2), (1, 1/4), (2, 1/8), (3, 1/16), (4, 1/32), (5, 1/32)]
    (by
      intro p hp
      fin_cases hp <;> norm_num)
  have h2 := C4_skin_reduction (K := ℚ) [(7, 0)]
    (by
      intro p hp
      fin_cases hp
      norm_num)
  refine ⟨h1.1, h1.2.1, ?_⟩
  exact (h2.2.2.2.1 (by norm_num)).1

/-! ### Claim C2: forward kinematics pass -/

/-- Symbolic evaluation of `applyAnimation` on a two-bone chain with one
rotation track on the root, at the keyframe: the root takes the track value,
the child keeps its rotation and gets the FK position. -/
theorem applyAnimation_pair_eval (p0 p1 : Vec3 ℚ) (r0 r1 v : Quat ℚ) :
    applyAnimation
      [⟨0, ['r'], none, p0, r0, ⟨1,1,1⟩, 1⟩,
       ⟨1, ['c'], some 0, p1, r1, ⟨1,1,1⟩, 1⟩]
      (initializeRestPose
        [⟨0, ['r'], none, p0, r0, ⟨1,1,1⟩, 1⟩,
         ⟨1, ['c'], some 0, p1, r1, ⟨1,1,1⟩, 1⟩])
      [⟨0, .rotApplied, [⟨0, [v.x, v.y, v.z, v.w], .linear⟩]⟩] 0 =
    [⟨0, ['r'], none, p0, v, ⟨1,1,1⟩, 1⟩,
     ⟨1, ['c'], some 0,
       vadd p0 (applyQuat v (applyQuat (qconj r0) (vsub p1 p0))), r1,
       ⟨1,1,1⟩, 1⟩] := rfl

/-- Counterexample to C2 as stated: on the two-bone skeleton with a rotation
track on the root only, the child (which has no rotation track) does NOT
inherit `parentWorldRot * childRestLocalRotation`.  The evaluated pose keeps
the child's rest rotation (identity) while the root carries the animated
rotation `(0,0,3/5,4/5)`, and the claim's formula would demand the child's
rotation to be that animated rotation. -/
theorem C2_fk_rotation_counterexample :
    ((applyAnimation (K := ℚ)
        [⟨0, ['r'], none, ⟨0,0,0⟩, ⟨0,0,0,1⟩, ⟨1,1,1⟩, 1⟩,
         ⟨1, ['c'], some 0, ⟨0,1,0⟩, ⟨0,0,0,1⟩, ⟨1,1,1⟩, 1⟩]
        (initializeRestPose (K := ℚ)
          [⟨0, ['r'], none, ⟨0,0,0⟩, ⟨0,0,0,1⟩, ⟨1,1,1⟩, 1⟩,
           ⟨1, ['c'], some 0, ⟨0,1,0⟩, ⟨0,0,0,1⟩, ⟨1,1,1⟩, 1⟩])
        [⟨0, .rotApplied, [⟨0, [0, 0, 3/5, 4/5], .linear⟩]⟩] 0).get? 1).map
      (fun b => b.rotation) = some ⟨0, 0, 0, 1⟩ ∧
    ((applyAnimation (K := ℚ)
        [⟨0, ['r'], none, ⟨0,0,0⟩, ⟨0,0,0,1⟩, ⟨1,1,1⟩, 1⟩,
         ⟨1, ['c'], some 0, ⟨0,1,0⟩, ⟨0,0,0,1⟩, ⟨1,1,1⟩, 1⟩]
        (initializeRestPose (K := ℚ)
          [⟨0, ['r'], none, ⟨0,0,0⟩, ⟨0,0,0,1⟩, ⟨1,1,1⟩, 1⟩,
           ⟨1, ['c'], some 0, ⟨0,1,0⟩, ⟨0,0,0,1⟩, ⟨1,1,1⟩, 1⟩])
        [⟨0, .rotApplied, [⟨0, [0, 0, 3/5, 4/5], .linear⟩]⟩] 0).get? 0).map
      (fun b => b.rotation) = some ⟨0, 0, 3/5, 4/5⟩ ∧
    (⟨0, 0, 0, 1⟩ : Quat ℚ) ≠
      qmul ⟨0, 0, 3/5, 4/5⟩ (qmul (qconj ⟨0, 0, 0, 1⟩) ⟨0, 0, 0, 1⟩) := by
  have heval : applyAnimation (K := ℚ)
      [⟨0, ['r'], none, ⟨0,0,0⟩, ⟨0,0,0,1⟩, ⟨1,1,1⟩, 1⟩,
       ⟨1, ['c'], some 0, ⟨0,1,0⟩, ⟨0,0,0,1⟩, ⟨1,1,1⟩, 1⟩]
      (initializeRestPose (K := ℚ)
        [⟨0, ['r'], none, ⟨0,0,0⟩, ⟨0,0,0,1⟩, ⟨1,1,1⟩, 1⟩,
         ⟨1, ['c'], some 0, ⟨0,1,0⟩, ⟨0,0,0,1⟩, ⟨1,1,1⟩, 1⟩])
      [⟨0, .rotApplied, [⟨0, [0, 0, 3/5, 4/5], .linear⟩]⟩] 0 =
      [⟨0, ['r'], none, ⟨0,0,0⟩, ⟨0,0,3/5,4/5⟩, ⟨1,1,1⟩, 1⟩,
       ⟨1, ['c'], some 0,
         vadd ⟨0,0,0⟩ (applyQuat ⟨0,0,3/5,4/5⟩
           (applyQuat (qconj ⟨0,0,0,1⟩) (vsub ⟨0,1,0⟩ ⟨0,0,0⟩))),
         ⟨0,0,0,1⟩, ⟨1,1,1⟩, 1⟩] :=
    applyAnimation_pair_eval ⟨0,0,0⟩ ⟨0,1,0⟩ ⟨0,0,0,1⟩ ⟨0,0,0,1⟩
      ⟨0, 0, 3/5, 4/5⟩
  refine ⟨?_, ?_, ?_⟩
  · rw [heval]
    rfl
  · rw [heval]
    rfl
  · intro h
    rw [Quat.mk.injEq] at h
    have hw := h.2.2.2
    simp only [qmul, qconj] at hw
    norm_num at hw

/-- C2 (amended): on a three-bone chain with a rotation track on the root
only, the evaluated pose at the keyframe is: the root takes the track's
rotation and keeps its position; every child's position (regardless of
whether it is animated) is recomputed as
`parentSnapshotPos + parentSnapshotRot ⊛ childRestLocalOffset`, where the
snapshot is the post-track-pass (pre-FK) state — so the grandchild consumes
the middle bone's pre-update position, not its FK-updated one; and no
rotation is ever propagated (children keep their rotations). -/
theorem C2_fk_positions_only (p0 p1 p2 : Vec3 ℚ) (r0 r1 r2 v : Quat ℚ) :
    applyAnimation
      [⟨0, ['r'], none, p0, r0, ⟨1,1,1⟩, 1⟩,
       ⟨1, ['m'], some 0, p1, r1, ⟨1,1,1⟩, 1⟩,
       ⟨2, ['t'], some 1, p2, r2, ⟨1,1,1⟩, 1⟩]
      (initializeRestPose
        [⟨0, ['r'], none, p0, r0, ⟨1,1,1⟩, 1⟩,
         ⟨1, ['m'], some 0, p1, r1, ⟨1,1,1⟩, 1⟩,
         ⟨2, ['t'], some 1, p2, r2, ⟨1,1,1⟩, 1⟩])
      [⟨0, .rotApplied, [⟨0, [v.x, v.y, v.z, v.w], .linear⟩]⟩] 0 =
    [⟨0, ['r'], none, p0, v, ⟨1,1,1⟩, 1⟩,
     ⟨1, ['m'], some 0,
       vadd p0 (applyQuat v (applyQuat (qconj r0) (vsub p1 p0))), r1,
       ⟨1,1,1⟩, 1⟩,
     ⟨2, ['t'], some 1,
       vadd p1 (applyQuat r1 (applyQuat (qconj r1) (vsub p2 p1))), r2,
       ⟨1,1,1⟩, 1⟩] := rfl

/-! ### Claim C1: interpolation of sampled tracks -/


/-- The demo keyframes are already frame-sorted. -/
theorem sortKeyframes_demo : sortKeyframes demoRotKfs = demoRotKfs := by
  norm_num [sortKeyframes, demoRotKfs, List.insertionSort, List.orderedInsert]

/-- Componentwise evaluation of the playback sampler on the demo track. -/
theorem interp_demo_eval :
    interpolateValue (K := ℝ) demoRotKfs 5 =
      some [0, Real.sqrt 2 / 4, 0, 1 / 2 + Real.sqrt 2 / 4] := by
  have hne : demoRotKfs.isEmpty = false := by norm_num [demoRotKfs]
  have hbr : findBracket (5 : ℝ) demoRotKfs =
      (some ⟨0, [0, 0, 0, 1], .linear⟩,
       some ⟨10, [0, Real.sqrt 2 / 2, 0, Real.sqrt 2 / 2], .linear⟩) := by
    norm_num [findBracket, demoRotKfs]
  simp only [interpolateValue, hne, Bool.false_eq_true, if_false,
    sortKeyframes_demo, hbr]
  norm_num [lerpList]
  constructor
  · ring
  · ring


/-- Unfolding of `slerpQuat` on the main (sine-ratio) branch. -/
theorem slerpQuat_main (qa qb : Quat ℝ) (t c s θ : ℝ)
    (hc : qa.w * qb.w + qa.x * qb.x + qa.y * qb.y + qa.z * qb.z = c)
    (ht0 : t ≠ 0) (ht1 : t ≠ 1)
    (hdot : ¬ c < 0) (hcos : ¬ 1 ≤ c)
    (heps : ¬ 1 - c * c ≤ jsEpsilon)
    (hs : Real.sqrt (1 - c * c) = s)
    (hθ : jsAtan2 s c = θ) :
    slerpQuat qa qb t =
      ⟨qa.x * (Real.sin ((1 - t) * θ) / s) + qb.x * (Real.sin (t * θ) / s),
       qa.y * (Real.sin ((1 - t) * θ) / s) + qb.y * (Real.sin (t * θ) / s),
       qa.z * (Real.sin ((1 - t) * θ) / s) + qb.z * (Real.sin (t * θ) / s),
       qa.w * (Real.sin ((1 - t) * θ) / s) + qb.w * (Real.sin (t * θ) / s)⟩ := by
  subst hc hs hθ
  simp only [slerpQuat, if_neg ht0, if_neg ht1, if_neg hdot, if_neg hcos,
    if_neg heps]

/-- Evaluation of `THREE.Quaternion.slerp` at the C1 scenario: the slerp
midpoint between the identity and a 90° Y-rotation is the 45° Y-rotation. -/
theorem slerp_demo_eval :
    slerpQuat ⟨0, 0, 0, 1⟩ ⟨0, Real.sqrt 2 / 2, 0, Real.sqrt 2 / 2⟩ (1 / 2) =
      ⟨0, Real.sin (Real.pi / 8), 0, Real.cos (Real.pi / 8)⟩ := by
  have hs2 : Real.sqrt 2 * Real.sqrt 2 = 2 := Real.mul_self_sqrt (by norm_num)
  have hs2pos : (0 : ℝ) < Real.sqrt 2 := Real.sqrt_pos.mpr (by norm_num)
  have hs2lt : Real.sqrt 2 < 2 := by nlinarith
  have h12 : (1 : ℝ) - Real.sqrt 2 / 2 * (Real.sqrt 2 / 2) = 1 / 2 := by
    linear_combination (-(1 : ℝ) / 4) * hs2
  have hspos : (0 : ℝ) < Real.sqrt 2 / 2 := by positivity
  have hhalf : Real.sqrt (1 - Real.sqrt 2 / 2 * (Real.sqrt 2 / 2))
      = Real.sqrt 2 / 2 := by
    rw [h12, Real.sqrt_eq_iff_mul_self_eq_of_pos hspos]
    linear_combination ((1 : ℝ) / 4) * hs2
  have hθ : jsAtan2 (Real.sqrt 2 / 2) (Real.sqrt 2 / 2) = Real.pi / 4 := by
    unfold jsAtan2
    rw [if_pos hspos, div_self (ne_of_gt hspos), Real.arctan_one]
  have hrw := slerpQuat_main ⟨0, 0, 0, 1⟩ ⟨0, Real.sqrt 2 / 2, 0, Real.sqrt 2 / 2⟩
    (1 / 2) (Real.sqrt 2 / 2) (Real.sqrt 2 / 2) (Real.pi / 4)
    (by norm_num) (by norm_num) (by norm_num)
    (by push_neg; positivity) (by push_neg; linarith)
    (by rw [h12]; norm_num [jsEpsilon]) hhalf hθ
  rw [hrw]
  have hang1 : (1 - (1 : ℝ) / 2) * (Real.pi / 4) = Real.pi / 8 := by ring
  have hang2 : ((1 : ℝ) / 2) * (Real.pi / 4) = Real.pi / 8 := by ring
  rw [hang1, hang2]
  have h2m : (0 : ℝ) ≤ 2 - Real.sqrt 2 := by linarith
  have h2p : (0 : ℝ) ≤ 2 + Real.sqrt 2 := by positivity
  have key : Real.sqrt (2 - Real.sqrt 2) * (2 + Real.sqrt 2)
      = Real.sqrt 2 * Real.sqrt (2 + Real.sqrt 2) := by
    calc Real.sqrt (2 - Real.sqrt 2) * (2 + Real.sqrt 2)
        = Real.sqrt (2 - Real.sqrt 2) * Real.sqrt ((2 + Real.sqrt 2) ^ 2) := by
          rw [Real.sqrt_sq h2p]
      _ = Real.sqrt ((2 - Real.sqrt 2) * (2 + Real.sqrt 2) ^ 2) :=
          (Real.sqrt_mul h2m _).symm
      _ = Real.sqrt (2 * (2 + Real.sqrt 2)) := by
          rw [show (2 - Real.sqrt 2) * (2 + Real.sqrt 2) ^ 2
              = 2 * (2 + Real.sqrt 2) from by
            linear_combination (-(Real.sqrt 2 + 2)) * hs2]
      _ = Real.sqrt 2 * Real.sqrt (2 + Real.sqrt 2) :=
          Real.sqrt_mul (by norm_num) _
  have hsne : Real.sqrt 2 / 2 ≠ 0 := ne_of_gt hspos
  refine Quat.mk.injEq .. ▸ ?_
  refine ⟨by ring, ?_, by ring, ?_⟩
  · rw [zero_mul, zero_add, mul_comm, div_mul_cancel₀ _ hsne]
  · have hw : Real.sin (Real.pi / 8) * (2 + Real.sqrt 2) / Real.sqrt 2
        = Real.cos (Real.pi / 8) := by
      rw [Real.sin_pi_div_eight, Real.cos_pi_div_eight,
        div_mul_eq_mul_div, div_div,
        div_eq_div_iff (by positivity) (by norm_num : (2 : ℝ) ≠ 0)]
      linear_combination 2 * key
    rw [← hw]
    field_simp
    ring


/-- The export sampler on the C1 scenario produces the exact slerp value. -/
theorem export_demo_eval :
    getAnimatedValueAtFrame demoRotTracks 0 .rotApplied 5 =
      some [0, Real.sin (Real.pi / 8), 0, Real.cos (Real.pi / 8)] := by
  have hne : demoRotKfs.isEmpty = false := rfl
  have hsk : sortKeyframes demoRotKfs =
      [(⟨0, [0, 0, 0, 1], .linear⟩ : Keyframe ℝ),
       ⟨10, [0, Real.sqrt 2 / 2, 0, Real.sqrt 2 / 2], .linear⟩] :=
    sortKeyframes_demo
  have hbr : findBracketExport (5 : ℝ)
      [(⟨0, [0, 0, 0, 1], .linear⟩ : Keyframe ℝ),
       ⟨10, [0, Real.sqrt 2 / 2, 0, Real.sqrt 2 / 2], .linear⟩]
      ⟨0, [0, 0, 0, 1], .linear⟩
      ⟨10, [0, Real.sqrt 2 / 2, 0, Real.sqrt 2 / 2], .linear⟩ =
      ((⟨0, [0, 0, 0, 1], .linear⟩ : Keyframe ℝ),
       ⟨10, [0, Real.sqrt 2 / 2, 0, Real.sqrt 2 / 2], .linear⟩) := by
    norm_num [findBracketExport]
  have hb : ((5 : ℝ) - 0) / (10 - 0) = 1 / 2 := by norm_num
  simp only [getAnimatedValueAtFrame, demoRotTracks, List.filter,
    beq_self_eq_true, Bool.and_self, if_true, List.getLast?, hne,
    Bool.false_eq_true, if_false, hsk, List.headD, List.getLastD,
    List.getLast, hbr, listToQuat]
  rw [if_neg (by norm_num : ¬ ((0 : ℝ) = 10 ∨ (0 : ℝ) = 5))]
  rw [if_neg (by norm_num : ¬ ((10 : ℝ) = 5))]
  rw [hb]
  rw [if_neg (show ¬ (InterpKind.linear = InterpKind.step) from by decide),
    if_neg (show ¬ (InterpKind.linear = InterpKind.bezier) from by decide)]
  rw [slerp_demo_eval]


/-- The slerp midpoint's `y` differs from the componentwise-lerp `y`. -/
theorem sin_pi8_ne : Real.sin (Real.pi / 8) ≠ Real.sqrt 2 / 4 := by
  rw [Real.sin_pi_div_eight]
  intro h
  have hs2 : Real.sqrt 2 * Real.sqrt 2 = 2 := Real.mul_self_sqrt (by norm_num)
  have hs2lt : Real.sqrt 2 < 2 := by nlinarith [Real.sqrt_nonneg 2]
  have hnn : (0 : ℝ) ≤ 2 - Real.sqrt 2 := by linarith
  have hsq : Real.sqrt (2 - Real.sqrt 2) * Real.sqrt (2 - Real.sqrt 2) =
      2 - Real.sqrt 2 := Real.mul_self_sqrt hnn
  have h2 : Real.sqrt (2 - Real.sqrt 2) = Real.sqrt 2 / 2 := by linarith
  rw [h2] at hsq
  have h3 : Real.sqrt 2 = 3 / 2 := by linear_combination hsq - (1 / 4) * hs2
  rw [h3] at hs2
  norm_num at hs2

/-- The playback sampler blends a two-keyframe linear track at the exact
midpoint frame into the componentwise average, for any value arrays. -/
theorem interp_lerp_eval (u v : List ℝ) :
    interpolateValue (K := ℝ) [⟨0, u, .linear⟩, ⟨10, v, .linear⟩] 5 =
      some (lerpList u v (1 / 2)) := by
  have hne : (([⟨0, u, .linear⟩, ⟨10, v, .linear⟩] :
      List (Keyframe ℝ))).isEmpty = false := rfl
  have hsk : sortKeyframes [(⟨0, u, .linear⟩ : Keyframe ℝ), ⟨10, v, .linear⟩] =
      [(⟨0, u, .linear⟩ : Keyframe ℝ), ⟨10, v, .linear⟩] := by
    norm_num [sortKeyframes, List.insertionSort, List.orderedInsert]
  have hbr : findBracket (5 : ℝ)
      [(⟨0, u, .linear⟩ : Keyframe ℝ), ⟨10, v, .linear⟩] =
      (some ⟨0, u, .linear⟩, some ⟨10, v, .linear⟩) := by
    norm_num [findBracket]
  have hb : ((5 : ℝ) - 0) / (10 - 0) = 1 / 2 := by norm_num
  simp only [interpolateValue, hne, Bool.false_eq_true, if_false, hsk, hbr]
  rw [if_neg (by norm_num : ¬ ((0 : ℝ) = 5))]
  rw [hb]

/-- The export sampler blends a two-keyframe linear position track at the
midpoint frame into the componentwise average, for any value arrays. -/
theorem export_lerp_eval (u v : List ℝ) :
    getAnimatedValueAtFrame
        [⟨0, .position, [⟨0, u, .linear⟩, ⟨10, v, .linear⟩]⟩] 0 .position 5 =
      some (lerpList u v (1 / 2)) := by
  have hne : (([⟨0, u, .linear⟩, ⟨10, v, .linear⟩] :
      List (Keyframe ℝ))).isEmpty = false := rfl
  have hsk : sortKeyframes [(⟨0, u, .linear⟩ : Keyframe ℝ), ⟨10, v, .linear⟩] =
      [(⟨0, u, .linear⟩ : Keyframe ℝ), ⟨10, v, .linear⟩] := by
    norm_num [sortKeyframes, List.insertionSort, List.orderedInsert]
  have hbr : findBracketExport (5 : ℝ)
      [(⟨0, u, .linear⟩ : Keyframe ℝ), ⟨10, v, .linear⟩]
      ⟨0, u, .linear⟩ ⟨10, v, .linear⟩ =
      ((⟨0, u, .linear⟩ : Keyframe ℝ), ⟨10, v, .linear⟩) := by
    norm_num [findBracketExport]
  have hb : ((5 : ℝ) - 0) / (10 - 0) = 1 / 2 := by norm_num
  simp only [getAnimatedValueAtFrame, List.filter, beq_self_eq_true,
    Bool.and_self, if_true, List.getLast?, hne, Bool.false_eq_true, if_false,
    hsk, List.headD, List.getLastD, List.getLast, hbr]
  rw [if_neg (by norm_num : ¬ ((0 : ℝ) = 10 ∨ (0 : ℝ) = 5))]
  rw [if_neg (by norm_num : ¬ ((10 : ℝ) = 5))]
  rw [hb]
  rw [if_neg (show ¬ (InterpKind.linear = InterpKind.step) from by decide),
    if_neg (show ¬ (InterpKind.linear = InterpKind.bezier) from by decide),
    if_neg (show ¬ (TrackProp.position = TrackProp.rotApplied) from by decide)]

/-- C1 (counterexample): the playback sampler `interpolateValue` does NOT
return the slerp midpoint on the 90°-about-Y rotation scenario at frame 5 —
it blends the quaternion components linearly instead of slerping. -/
theorem C1_rotation_slerp_counterexample :
    interpolateValue (K := ℝ) demoRotKfs 5 ≠
      some [(slerpQuat ⟨0, 0, 0, 1⟩ ⟨0, Real.sqrt 2 / 2, 0, Real.sqrt 2 / 2⟩
               (1 / 2)).x,
            (slerpQuat ⟨0, 0, 0, 1⟩ ⟨0, Real.sqrt 2 / 2, 0, Real.sqrt 2 / 2⟩
               (1 / 2)).y,
            (slerpQuat ⟨0, 0, 0, 1⟩ ⟨0, Real.sqrt 2 / 2, 0, Real.sqrt 2 / 2⟩
               (1 / 2)).z,
            (slerpQuat ⟨0, 0, 0, 1⟩ ⟨0, Real.sqrt 2 / 2, 0, Real.sqrt 2 / 2⟩
               (1 / 2)).w] := by
  rw [interp_demo_eval, slerp_demo_eval]
  intro h
  simp only [Option.some.injEq, List.cons.injEq, eq_self_iff_true, true_and,
    and_true] at h
  exact sin_pi8_ne h.1.symm

/-- C1 (amended): position and scale values are blended componentwise by
BOTH samplers, but only the export sampler `getAnimatedValueAtFrame` slerps
rotations; the playback sampler `interpolateValue` blends rotation
components linearly, and the two disagree on the 90°-about-Y scenario at
frame 5 (slerp midpoint `y = sin (π/8)`, lerp midpoint `y = √2/4`). -/
theorem C1_sampler_interpolation :
    (∀ u v : List ℝ,
        interpolateValue (K := ℝ) [⟨0, u, .linear⟩, ⟨10, v, .linear⟩] 5 =
          some (lerpList u v (1 / 2)) ∧
        getAnimatedValueAtFrame
            [⟨0, .position, [⟨0, u, .linear⟩, ⟨10, v, .linear⟩]⟩]
            0 .position 5 =
          some (lerpList u v (1 / 2))) ∧
    getAnimatedValueAtFrame demoRotTracks 0 .rotApplied 5 =
      some [0, Real.sin (Real.pi / 8), 0, Real.cos (Real.pi / 8)] ∧
    slerpQuat ⟨0, 0, 0, 1⟩ ⟨0, Real.sqrt 2 / 2, 0, Real.sqrt 2 / 2⟩ (1 / 2) =
      ⟨0, Real.sin (Real.pi / 8), 0, Real.cos (Real.pi / 8)⟩ ∧
    interpolateValue (K := ℝ) demoRotKfs 5 =
      some [0, Real.sqrt 2 / 4, 0, 1 / 2 + Real.sqrt 2 / 4] ∧
    Real.sqrt 2 / 4 ≠ Real.sin (Real.pi / 8) :=
  ⟨fun u v => ⟨interp_lerp_eval u v, export_lerp_eval u v⟩,
   export_demo_eval, slerp_demo_eval, interp_demo_eval,
   fun h => sin_pi8_ne h.symm⟩

/-! ### Claim C6: envelope weighting -/

/-- The demo bone's segment is the unit segment up the Y axis. -/
theorem demo_segment_eval :
    getBoneSegment demoEnvBone = (⟨0, 0, 0⟩, ⟨0, 1, 0⟩) := by
  have happ : applyQuat (K := ℝ) ⟨0, 0, 0, 1⟩ ⟨0, 1, 0⟩ = ⟨0, 1, 0⟩ := by
    norm_num [applyQuat]
  have hlen : vlengthSq (K := ℝ) ⟨0, 1, 0⟩ = 1 := by norm_num [vlengthSq]
  have hnorm : vnormalize ⟨0, 1, 0⟩ = ⟨0, 1, 0⟩ := by
    rw [vnormalize, hlen, Real.sqrt_one]
    norm_num
  simp only [getBoneSegment, demoEnvBone, happ, hnorm]
  have hm : max (1 : ℝ) 0.001 = 1 := by norm_num
  rw [hm]
  norm_num [vadd, vsmul]

/-- The demo vertex sits at distance `1.998` from the demo segment. -/
theorem demo_distance_eval :
    distanceToSegment ⟨1.998, 0.5, 0⟩ ⟨0, 0, 0⟩ ⟨0, 1, 0⟩ = 1.998 := by
  have hseg : vsub (K := ℝ) ⟨0, 1, 0⟩ ⟨0, 0, 0⟩ = ⟨0, 1, 0⟩ := by
    norm_num [vsub]
  have hlen : vlengthSq (K := ℝ) ⟨0, 1, 0⟩ = 1 := by norm_num [vlengthSq]
  rw [distanceToSegment]
  simp only [hseg, hlen]
  rw [if_neg (by norm_num : ¬ ((1 : ℝ) = 0))]
  have ht : vdot (vsub (K := ℝ) ⟨1.998, 0.5, 0⟩ ⟨0, 0, 0⟩) ⟨0, 1, 0⟩ / 1 =
      0.5 := by norm_num [vdot, vsub]
  rw [ht]
  have hcl : min (1 : ℝ) (max 0 0.5) = 0.5 := by norm_num
  rw [hcl]
  have hclosest : vadd (K := ℝ) ⟨0, 0, 0⟩ (vsmul 0.5 ⟨0, 1, 0⟩) =
      ⟨0, 0.5, 0⟩ := by norm_num [vadd, vsmul]
  rw [hclosest, vdist]
  have : vlengthSq (vsub (K := ℝ) ⟨1.998, 0.5, 0⟩ ⟨0, 0.5, 0⟩) =
      1.998 ^ 2 := by norm_num [vlengthSq, vsub]
  rw [this, Real.sqrt_sq (by norm_num)]

/-- C6 (counterexample): a vertex strictly inside the envelope radius whose
envelope weight is exactly the `0.001` cutoff is silently dropped — the
weight list is empty although the claim assigns it weight `(1 − d/r)^f`. -/
theorem C6_envelope_cutoff_counterexample :
    distanceToSegment ⟨1.998, 0.5, 0⟩ (getBoneSegment demoEnvBone).1
        (getBoneSegment demoEnvBone).2 = 1.998 ∧
    (1.998 : ℝ) < max (demoEnvBone.length * 2) 0.05 ∧
    ((1 : ℝ) - 1.998 / max (demoEnvBone.length * 2) 0.05) ^ (1 : ℝ) =
      0.001 ∧
    calculateEnvelopeWeights ⟨1.998, 0.5, 0⟩ [demoEnvBone] 1 = [] := by
  have hrad : max (demoEnvBone.length * 2) 0.05 = 2 := by
    norm_num [demoEnvBone]
  have hd : distanceToSegment ⟨1.998, 0.5, 0⟩ (getBoneSegment demoEnvBone).1
      (getBoneSegment demoEnvBone).2 = 1.998 := by
    rw [demo_segment_eval]
    exact demo_distance_eval
  refine ⟨hd, by rw [hrad]; norm_num, ?_, ?_⟩
  · rw [hrad, Real.rpow_one]
    norm_num
  · rw [calculateEnvelopeWeights]
    simp only [List.enum, List.enumFrom, List.filterMap, demo_segment_eval,
      demo_distance_eval, hrad, Real.rpow_one]
    norm_num


/-- Membership in the envelope weight list, unfolded. -/
theorem envelope_mem_iff (vertex : Vec3 ℝ) (bones : List (BoneData ℝ))
    (falloff : ℝ) (i : ℕ) (b : BoneData ℝ) (hb : bones[i]? = some b)
    (w : ℝ) :
    (i, w) ∈ calculateEnvelopeWeights vertex bones falloff ↔
      (distanceToSegment vertex (getBoneSegment b).1 (getBoneSegment b).2 <
          max (b.length * 2) 0.05 ∧
        w = (1 - distanceToSegment vertex (getBoneSegment b).1
              (getBoneSegment b).2 / max (b.length * 2) 0.05) ^ falloff ∧
        w > 0.001) := by
  rw [calculateEnvelopeWeights, List.mem_filterMap]
  constructor
  · rintro ⟨⟨j, b'⟩, hjb, hf⟩
    dsimp only at hf
    by_cases h1 : distanceToSegment vertex (getBoneSegment b').1
        (getBoneSegment b').2 < max (b'.length * 2) 0.05
    · rw [if_pos h1] at hf
      by_cases h2 : (1 - distanceToSegment vertex (getBoneSegment b').1
          (getBoneSegment b').2 / max (b'.length * 2) 0.05) ^ falloff > 0.001
      · rw [if_pos h2] at hf
        simp only [Option.some.injEq, Prod.mk.injEq] at hf
        obtain ⟨hj, hw⟩ := hf
        subst hj
        have hb' : bones[j]? = some b' := List.mk_mem_enum_iff_getElem?.mp hjb
        rw [hb] at hb'
        have hbb : b' = b := (Option.some_inj.mp hb').symm
        subst hbb
        exact ⟨h1, hw.symm, hw ▸ h2⟩
      · rw [if_neg h2] at hf
        exact absurd hf (by simp)
    · rw [if_neg h1] at hf
      exact absurd hf (by simp)
  · rintro ⟨h1, hw, h2⟩
    refine ⟨(i, b), List.mk_mem_enum_iff_getElem?.mpr hb, ?_⟩
    dsimp only
    rw [if_pos h1, if_pos (hw ▸ h2)]
    rw [hw]

/-- C6 (amended): for the bone at index `i`, writing `d` for the
point-to-segment distance to its `max(length, 0.001)`-long +Y segment and
`r = max(2·length, 0.05)` for the envelope radius, a weight for the bone is
emitted iff `d < r` AND the envelope value `(1 − d/r)^falloff` exceeds the
silent `0.001` cutoff; any emitted weight equals `(1 − d/r)^falloff`;
beyond the radius the bone never receives a weight; and a vertex on the
segment (distance 0) receives exactly weight 1. -/
theorem C6_envelope_weights (vertex : Vec3 ℝ) (bones : List (BoneData ℝ))
    (falloff : ℝ) (i : ℕ) (b : BoneData ℝ) (hb : bones[i]? = some b) :
    ((∃ w, (i, w) ∈ calculateEnvelopeWeights vertex bones falloff) ↔
        (distanceToSegment vertex (getBoneSegment b).1 (getBoneSegment b).2 <
            max (b.length * 2) 0.05 ∧
          (1 - distanceToSegment vertex (getBoneSegment b).1
                (getBoneSegment b).2 / max (b.length * 2) 0.05) ^ falloff >
            0.001)) ∧
      (∀ w, (i, w) ∈ calculateEnvelopeWeights vertex bones falloff →
        w = (1 - distanceToSegment vertex (getBoneSegment b).1
              (getBoneSegment b).2 / max (b.length * 2) 0.05) ^ falloff) ∧
      (max (b.length * 2) 0.05 ≤
          distanceToSegment vertex (getBoneSegment b).1 (getBoneSegment b).2 →
        ∀ w, (i, w) ∉ calculateEnvelopeWeights vertex bones falloff) ∧
      (distanceToSegment vertex (getBoneSegment b).1 (getBoneSegment b).2 =
          0 →
        (i, 1) ∈ calculateEnvelopeWeights vertex bones falloff) := by
  refine ⟨⟨?_, ?_⟩, ?_, ?_, ?_⟩
  · rintro ⟨w, hw⟩
    obtain ⟨h1, hval, h2⟩ := (envelope_mem_iff vertex bones falloff i b hb w).mp hw
    exact ⟨h1, hval ▸ h2⟩
  · rintro ⟨h1, h2⟩
    exact ⟨_, (envelope_mem_iff vertex bones falloff i b hb _).mpr ⟨h1, rfl, h2⟩⟩
  · intro w hw
    exact ((envelope_mem_iff vertex bones falloff i b hb w).mp hw).2.1
  · intro hfar w hw
    exact absurd ((envelope_mem_iff vertex bones falloff i b hb w).mp hw).1
      (not_lt.mpr hfar)
  · intro h0
    refine (envelope_mem_iff vertex bones falloff i b hb 1).mpr ⟨?_, ?_, by norm_num⟩
    · rw [h0]
      exact lt_of_lt_of_le (by norm_num) (le_max_right _ _)
    · rw [h0, zero_div, sub_zero, Real.one_rpow]

/-- Witness for C6: the middle of the demo bone's segment sits at distance
zero and receives weight exactly 1. -/
theorem C6_envelope_weights_witness :
    ([demoEnvBone] : List (BoneData ℝ))[0]? = some demoEnvBone ∧
    (((∃ w, (0, w) ∈ calculateEnvelopeWeights ⟨0, 0.5, 0⟩ [demoEnvBone] 2) ↔
        (distanceToSegment ⟨0, 0.5, 0⟩ (getBoneSegment demoEnvBone).1
            (getBoneSegment demoEnvBone).2 <
            max (demoEnvBone.length * 2) 0.05 ∧
          (1 - distanceToSegment ⟨0, 0.5, 0⟩ (getBoneSegment demoEnvBone).1
                (getBoneSegment demoEnvBone).2 /
              max (demoEnvBone.length * 2) 0.05) ^ (2 : ℝ) > 0.001)) ∧
      (∀ w, (0, w) ∈ calculateEnvelopeWeights ⟨0, 0.5, 0⟩ [demoEnvBone] 2 →
        w = (1 - distanceToSegment ⟨0, 0.5, 0⟩ (getBoneSegment demoEnvBone).1
              (getBoneSegment demoEnvBone).2 /
            max (demoEnvBone.length * 2) 0.05) ^ (2 : ℝ)) ∧
      (max (demoEnvBone.length * 2) 0.05 ≤
          distanceToSegment ⟨0, 0.5, 0⟩ (getBoneSegment demoEnvBone).1
            (getBoneSegment demoEnvBone).2 →
        ∀ w, (0, w) ∉ calculateEnvelopeWeights ⟨0, 0.5, 0⟩ [demoEnvBone] 2) ∧
      (distanceToSegment ⟨0, 0.5, 0⟩ (getBoneSegment demoEnvBone).1
          (getBoneSegment demoEnvBone).2 = 0 →
        (0, 1) ∈ calculateEnvelopeWeights ⟨0, 0.5, 0⟩ [demoEnvBone] 2)) :=
  ⟨rfl, C6_envelope_weights ⟨0, 0.5, 0⟩ [demoEnvBone] 2 0 demoEnvBone rfl⟩
/-! ### Claims C7 and C10: AI animation conversion -/

/-- The demo skeleton's bone-name lookup resolves the root. -/
theorem lookup_demoHips : lookupBoneId [demoHips] (some ("hips".toList)) = some 0 := rfl

/-- Rounding then clamping frame `0` gives frame `0`. -/
theorem jsFrame_zero : jsMax0 (jsRound (JSNum.fin 0)) = JSNum.fin 0 := by
  rw [jsRound, jsMax0]
  norm_num

/-- Evaluation of the C7 demo conversion fold: one position track on the
root, with the single keyframe kept. -/
theorem conv_demoC7_eval :
    (demoC7Data.bones.foldl
        (fun acc ba => convertBoneAnim [demoHips] ba acc) ([], 0)).1 =
      [⟨0, TrackProp.position, [⟨0, [0, 1, 0], InterpKind.linear⟩]⟩] := by
  simp only [demoC7Data, List.foldl, convertBoneAnim, lookup_demoHips,
    processRotKfs, processPosKfs, jsFrame_zero, jsFinite?,
    List.isEmpty, ensureFrameZero, List.any,
    beq_self_eq_true, Bool.or_true, Bool.true_or, if_true, sortKeyframes,
    List.insertionSort, List.orderedInsert]
  norm_num

/-- C7 (counterexample): a response whose only valid content is a position
track on the parentless root bone converts "successfully", yet the returned
clip has NO tracks at all — the root-motion lock runs after the emptiness
check and silently deletes the last usable track. -/
theorem C7_root_lock_counterexample :
    (convertToAnimationClip demoC7Data [demoHips] none).map
        (fun clip => clip.tracks) = some [] ∧
    (demoC7Data.bones.foldl
        (fun acc ba => convertBoneAnim [demoHips] ba acc) ([], 0)).1 ≠ [] := by
  constructor
  · rw [convertToAnimationClip]
    simp only [conv_demoC7_eval, List.isEmpty, Bool.false_eq_true, if_false,
      applyMotionFallback, lockRootMotion, List.filter, List.map,
      List.isEmpty, List.contains, Option.map]
    norm_num [demoHips, isCentralPelvisName]
  · rw [conv_demoC7_eval]
    exact fun h => List.noConfusion h

/-- C7 (amended): parsing is lenient but validation is strict and
per-entry — an unknown bone name skips only its own entry, a keyframe with
a non-finite frame or component is dropped individually — and the
conversion as a whole fails (returns `none`) exactly when NO track was
built; however the success check runs BEFORE root-motion locking, so a
"successful" clip can still end up with zero tracks. -/
theorem C7_lenient_strict_validation (data : RawAnimationData)
    (bones : List (BoneData ℝ)) (prompt : Option (List Char)) :
    ((convertToAnimationClip data bones prompt).isSome ↔
      (data.bones.foldl (fun acc ba => convertBoneAnim bones ba acc)
        ([], 0)).1 ≠ []) ∧
    (∀ ba acc, lookupBoneId bones ba.boneName = none →
      convertBoneAnim bones ba acc = acc) ∧
    (∀ kf rest m rot, kf.rotation = some rot → rot.length = 4 →
      jsFinite? (jsMax0 (jsRound kf.frame)) = none →
      processRotKfs (kf :: rest) m = processRotKfs rest m) ∧
    (∀ kf rest m a b c d f, kf.rotation = some [a, b, c, d] →
      jsFinite? (jsMax0 (jsRound kf.frame)) = some f →
      jsFinite? a = none →
      processRotKfs (kf :: rest) m = processRotKfs rest (max m f)) := by
  refine ⟨?_, ?_, ?_, ?_⟩
  · rw [convertToAnimationClip]
    generalize (data.bones.foldl (fun acc ba => convertBoneAnim bones ba acc)
      ([], 0)) = pr
    obtain ⟨l, m⟩ := pr
    cases l with
    | nil => simp
    | cons t ts => simp
  · intro ba acc hnone
    rw [convertBoneAnim, hnone]
  · intro kf rest m rot hrot hlen hfin
    rw [processRotKfs, hrot]
    simp only [hlen, if_true, hfin]
  · intro kf rest m a b c d f hrot hfin ha
    rw [processRotKfs, hrot]
    simp only [List.length_cons, List.length_nil, hfin, ha, if_true]

/-- Witness for C7: the demo conversion is reported successful, and an
entry naming an unknown bone is skipped without affecting the result. -/
theorem C7_lenient_strict_witness :
    (convertToAnimationClip demoC7Data [demoHips] none).isSome ∧
    convertBoneAnim [demoHips] ⟨some ("zzz".toList), []⟩ ([], 0) = ([], 0) :=
  ⟨(C7_lenient_strict_validation demoC7Data [demoHips] none).1.mpr
      (by rw [conv_demoC7_eval]; exact fun h => List.noConfusion h),
   (C7_lenient_strict_validation demoC7Data [demoHips] none).2.1
      ⟨some ("zzz".toList), []⟩ ([], 0) rfl⟩



/-- `THREE.Quaternion.normalize` always yields a unit quaternion. -/
theorem quatNormalize_unit (q : Quat ℝ) : qnormSq (quatNormalize q) = 1 := by
  simp only [quatNormalize]
  by_cases h : Real.sqrt (qnormSq q) = 0
  · rw [if_pos h]
    norm_num [qnormSq]
  · rw [if_neg h]
    have hnn : 0 ≤ qnormSq q := by
      rw [qnormSq]
      exact add_nonneg (add_nonneg (add_nonneg (mul_self_nonneg _)
        (mul_self_nonneg _)) (mul_self_nonneg _)) (mul_self_nonneg _)
    have hS : qnormSq q ≠ 0 := fun hS => h (by rw [hS, Real.sqrt_zero])
    have hsq : Real.sqrt (qnormSq q) * Real.sqrt (qnormSq q) = qnormSq q :=
      Real.mul_self_sqrt hnn
    show (q.x / _) * (q.x / _) + (q.y / _) * (q.y / _) +
      (q.z / _) * (q.z / _) + (q.w / _) * (q.w / _) = 1
    rw [div_mul_div_comm, div_mul_div_comm, div_mul_div_comm,
      div_mul_div_comm, div_add_div_same, div_add_div_same,
      div_add_div_same, hsq]
    exact div_self hS

/-- The conversion's quaternion normalization yields a unit 4-array. -/
theorem normalizeQuat4_unit (x y z w : ℝ) :
    ∃ a b c d, normalizeQuat4 x y z w = [a, b, c, d] ∧
      a * a + b * b + c * c + d * d = 1 := by
  simp only [normalizeQuat4]
  by_cases h : Real.sqrt (x * x + y * y + z * z + w * w) > 0
  · rw [if_pos h]
    refine ⟨_, _, _, _, rfl, ?_⟩
    have hnn : (0 : ℝ) ≤ x * x + y * y + z * z + w * w :=
      add_nonneg (add_nonneg (add_nonneg (mul_self_nonneg _)
        (mul_self_nonneg _)) (mul_self_nonneg _)) (mul_self_nonneg _)
    have hsq := Real.mul_self_sqrt hnn
    have hne : Real.sqrt (x * x + y * y + z * z + w * w) ≠ 0 := ne_of_gt h
    have hS : x * x + y * y + z * z + w * w ≠ 0 :=
      fun hS => hne (by rw [hS, Real.sqrt_zero])
    rw [div_mul_div_comm, div_mul_div_comm, div_mul_div_comm,
      div_mul_div_comm, div_add_div_same, div_add_div_same,
      div_add_div_same, hsq]
    exact div_self hS
  · rw [if_neg h]
    exact ⟨0, 0, 0, 1, rfl, by norm_num⟩

/-- Invariants of the rotation-keyframe loop: the running maximum only
grows, every kept frame is bounded by the final maximum, and every kept
value is a normalized quaternion array. -/
theorem processRotKfs_spec (kfs : List RawKeyframe) : ∀ m : ℝ,
    m ≤ (processRotKfs kfs m).2 ∧
    ∀ kf ∈ (processRotKfs kfs m).1,
      kf.frame ≤ (processRotKfs kfs m).2 ∧
      ∃ x y z w, kf.value = normalizeQuat4 x y z w := by
  induction kfs with
  | nil =>
    intro m
    rw [processRotKfs]
    exact ⟨le_refl m, by simp⟩
  | cons kf rest ih =>
    intro m
    have hskip : ∀ m' : ℝ, m ≤ m' →
        m ≤ (processRotKfs rest m').2 ∧
        ∀ kf' ∈ (processRotKfs rest m').1,
          kf'.frame ≤ (processRotKfs rest m').2 ∧
          ∃ x y z w, kf'.value = normalizeQuat4 x y z w :=
      fun m' hm' => ⟨le_trans hm' (ih m').1, (ih m').2⟩
    rw [processRotKfs]
    cases hrot : kf.rotation with
    | none => exact hskip m (le_refl m)
    | some rot =>
      by_cases hlen : rot.length = 4
      · simp only [hlen, if_true]
        cases hfin : jsFinite? (jsMax0 (jsRound kf.frame)) with
        | none => exact hskip m (le_refl m)
        | some f =>
          match rot, hlen with
          | [a, b, c, d], _ =>
            dsimp only
            cases hA : jsFinite? a with
            | none => exact hskip (max m f) (le_max_left m f)
            | some xa =>
              cases hB : jsFinite? b with
              | none => exact hskip (max m f) (le_max_left m f)
              | some xb =>
                cases hC : jsFinite? c with
                | none => exact hskip (max m f) (le_max_left m f)
                | some xc =>
                  cases hD : jsFinite? d with
                  | none => exact hskip (max m f) (le_max_left m f)
                  | some xd =>
                    simp only [hA, hB, hC, hD]
                    refine ⟨le_trans (le_max_left m f) (ih (max m f)).1, ?_⟩
                    intro kf' hkf'
                    rcases List.mem_cons.mp hkf' with hh | hh
                    · subst hh
                      exact ⟨le_trans (le_max_right m f) (ih (max m f)).1,
                        xa, xb, xc, xd, rfl⟩
                    · exact (ih (max m f)).2 kf' hh
      · simp only [hlen, if_false]
        exact hskip m (le_refl m)

/-- Invariants of the position-keyframe loop: the running maximum only
grows and every kept frame is bounded by the final maximum. -/
theorem processPosKfs_spec (kfs : List RawKeyframe) : ∀ m : ℝ,
    m ≤ (processPosKfs kfs m).2 ∧
    ∀ kf ∈ (processPosKfs kfs m).1,
      kf.frame ≤ (processPosKfs kfs m).2 := by
  induction kfs with
  | nil =>
    intro m
    rw [processPosKfs]
    exact ⟨le_refl m, by simp⟩
  | cons kf rest ih =>
    intro m
    have hskip : ∀ m' : ℝ, m ≤ m' →
        m ≤ (processPosKfs rest m').2 ∧
        ∀ kf' ∈ (processPosKfs rest m').1,
          kf'.frame ≤ (processPosKfs rest m').2 :=
      fun m' hm' => ⟨le_trans hm' (ih m').1, (ih m').2⟩
    rw [processPosKfs]
    cases hpos : kf.position with
    | none => exact hskip m (le_refl m)
    | some pos =>
      by_cases hlen : pos.length = 3
      · simp only [hlen, if_true]
        cases hfin : jsFinite? (jsMax0 (jsRound kf.frame)) with
        | none => exact hskip m (le_refl m)
        | some f =>
          match pos, hlen with
          | [a, b, c], _ =>
            dsimp only
            cases hA : jsFinite? a with
            | none => exact hskip (max m f) (le_max_left m f)
            | some xa =>
              cases hB : jsFinite? b with
              | none => exact hskip (max m f) (le_max_left m f)
              | some xb =>
                cases hC : jsFinite? c with
                | none => exact hskip (max m f) (le_max_left m f)
                | some xc =>
                  simp only [hA, hB, hC]
                  refine ⟨le_trans (le_max_left m f) (ih (max m f)).1, ?_⟩
                  intro kf' hkf'
                  rcases List.mem_cons.mp hkf' with hh | hh
                  · subst hh
                    exact le_trans (le_max_right m f) (ih (max m f)).1
                  · exact (ih (max m f)).2 kf' hh
      · simp only [hlen, if_false]
        exact hskip m (le_refl m)


/-- `sortKeyframes` permutes its input. -/
theorem sortKeyframes_perm (kfs : List (Keyframe ℝ)) :
    List.Perm (sortKeyframes kfs) kfs :=
  List.perm_insertionSort _ _

/-- `sortKeyframes` sorts by ascending frame. -/
theorem sortKeyframes_sorted (kfs : List (Keyframe ℝ)) :
    List.Sorted (fun a b : Keyframe ℝ => a.frame ≤ b.frame)
      (sortKeyframes kfs) := by
  haveI : IsTotal (Keyframe ℝ) (fun a b : Keyframe ℝ => a.frame ≤ b.frame) :=
    ⟨fun a b => le_total a.frame b.frame⟩
  haveI : IsTrans (Keyframe ℝ) (fun a b : Keyframe ℝ => a.frame ≤ b.frame) :=
    ⟨fun a b c hab hbc => le_trans hab hbc⟩
  exact List.sorted_insertionSort _ _

/-- The result of `ensureFrameZero` contains a frame-0 keyframe. -/
theorem ensureFrameZero_zero_mem (kfs : List (Keyframe ℝ)) (v : List ℝ) :
    ∃ kf ∈ ensureFrameZero kfs v, kf.frame = 0 := by
  rw [ensureFrameZero]
  by_cases h : kfs.any (fun kf => kf.frame == 0)
  · rw [if_pos h]
    obtain ⟨kf, hkf, hf⟩ := List.any_eq_true.mp h
    exact ⟨kf, hkf, by simpa using hf⟩
  · rw [if_neg h]
    exact ⟨⟨0, v, .linear⟩,
      List.mem_append_right _ (List.mem_singleton.mpr rfl), rfl⟩

/-- Every keyframe of `ensureFrameZero`'s result is an input keyframe or
the injected frame-0 keyframe. -/
theorem ensureFrameZero_mem (kfs : List (Keyframe ℝ)) (v : List ℝ) :
    ∀ kf ∈ ensureFrameZero kfs v,
      kf ∈ kfs ∨ kf = ⟨0, v, InterpKind.linear⟩ := by
  rw [ensureFrameZero]
  by_cases h : kfs.any (fun kf => kf.frame == 0)
  · rw [if_pos h]
    exact fun kf hkf => Or.inl hkf
  · rw [if_neg h]
    intro kf hkf
    rcases List.mem_append.mp hkf with hh | hh
    · exact Or.inl hh
    · exact Or.inr (List.mem_singleton.mp hh)

/-- `ensureFrameZero` never returns the empty list. -/
theorem ensureFrameZero_ne_nil (kfs : List (Keyframe ℝ)) (v : List ℝ) :
    ensureFrameZero kfs v ≠ [] := by
  rw [ensureFrameZero]
  by_cases h : kfs.any (fun kf => kf.frame == 0)
  · rw [if_pos h]
    obtain ⟨kf, hkf, _⟩ := List.any_eq_true.mp h
    exact List.ne_nil_of_mem hkf
  · rw [if_neg h]
    simp

/-- A successful bone-name lookup always has a rest bone in the store. -/
theorem lookup_find (bones : List (BoneData ℝ)) (nm : Option (List Char))
    (bid : ℕ) (h : lookupBoneId bones nm = some bid) :
    ∃ rb, bones.find? (fun b => b.id == bid) = some rb ∧ rb ∈ bones := by
  cases nm with
  | none => exact absurd h (by rw [lookupBoneId]; exact Option.noConfusion)
  | some s =>
    rw [lookupBoneId] at h
    obtain ⟨b, hb, hid⟩ := Option.map_eq_some'.mp h
    have hmem : b ∈ bones :=
      List.mem_of_mem_filter (List.mem_of_getLast?_eq_some hb)
    have hsome : (bones.find? (fun b2 => b2.id == bid)).isSome :=
      List.find?_isSome.mpr ⟨b, hmem, by rw [hid]; exact beq_self_eq_true _⟩
    obtain ⟨rb, hrb⟩ := Option.isSome_iff_exists.mp hsome
    exact ⟨rb, hrb, List.mem_of_find?_eq_some hrb⟩

/-- Track well-formedness is monotone in the frame bound. -/
theorem TrackWF_mono (bones : List (BoneData ℝ)) {m m' : ℝ} (h : m ≤ m')
    (tr : AnimationTrack ℝ) (hw : TrackWF bones m tr) :
    TrackWF bones m' tr :=
  ⟨hw.1, hw.2.1, hw.2.2.1,
   fun kf hkf => le_trans (hw.2.2.2.1 kf hkf) h, hw.2.2.2.2⟩

/-- A track pushed by the conversion — nonempty keyframes through
`ensureFrameZero` and `sortKeyframes` — is well-formed. -/
theorem pushedTrack_wf (bones : List (BoneData ℝ)) (bid : ℕ) (p : TrackProp)
    (L : List (Keyframe ℝ)) (v : List ℝ) (M : ℝ)
    (hL : L ≠ []) (h0 : 0 ≤ M) (hb : ∀ kf ∈ L, kf.frame ≤ M)
    (hval : p = TrackProp.rotApplied →
      (∀ b ∈ bones, qnormSq b.rotation = 1) →
      (∀ kf ∈ L, ∃ x y z w, kf.value = [x, y, z, w] ∧
        x * x + y * y + z * z + w * w = 1) ∧
      (∃ x y z w, v = [x, y, z, w] ∧ x * x + y * y + z * z + w * w = 1)) :
    TrackWF bones M ⟨bid, p, sortKeyframes (ensureFrameZero L v)⟩ := by
  have hperm := sortKeyframes_perm (ensureFrameZero L v)
  refine ⟨?_, ?_, sortKeyframes_sorted _, ?_, ?_⟩
  · intro hnil
    have hnil2 : sortKeyframes (ensureFrameZero L v) = [] := hnil
    rw [hnil2] at hperm
    exact ensureFrameZero_ne_nil L v hperm.symm.eq_nil
  · obtain ⟨kf, hkf, hf⟩ := ensureFrameZero_zero_mem L v
    exact ⟨kf, hperm.mem_iff.mpr hkf, hf⟩
  · intro kf hkf
    rcases ensureFrameZero_mem L v kf (hperm.mem_iff.mp hkf) with hh | hh
    · exact hb kf hh
    · rw [hh]
      exact h0
  · intro hp hrest kf hkf
    rcases ensureFrameZero_mem L v kf (hperm.mem_iff.mp hkf) with hh | hh
    · exact (hval hp hrest).1 kf hh
    · obtain ⟨x, y, z, w, hv, hu⟩ := (hval hp hrest).2
      exact ⟨x, y, z, w, by rw [hh, hv], hu⟩


/-- One conversion step preserves track well-formedness: the frame bound
only grows, and every track in the result — old or newly pushed — is
well-formed against the new bound. -/
theorem convertBoneAnim_wf (bones : List (BoneData ℝ)) (ba : RawBoneAnim)
    (acc : List (AnimationTrack ℝ) × ℝ) (h0 : 0 ≤ acc.2)
    (hacc : ∀ tr ∈ acc.1, TrackWF bones acc.2 tr) :
    0 ≤ (convertBoneAnim bones ba acc).2 ∧
    ∀ tr ∈ (convertBoneAnim bones ba acc).1,
      TrackWF bones (convertBoneAnim bones ba acc).2 tr := by
  rw [convertBoneAnim]
  cases hlook : lookupBoneId bones ba.boneName with
  | none => exact ⟨h0, hacc⟩
  | some bid =>
    obtain ⟨rb, hfind, hrb⟩ := lookup_find bones ba.boneName bid hlook
    dsimp only
    rw [hfind]
    dsimp only
    have hrotspec := processRotKfs_spec ba.keyframes acc.2
    have hm1 : acc.2 ≤ (processRotKfs ba.keyframes acc.2).2 := hrotspec.1
    have hrotwf : ∀ M : ℝ, (processRotKfs ba.keyframes acc.2).2 ≤ M → 0 ≤ M →
        TrackWF bones M ⟨bid, TrackProp.rotApplied,
          sortKeyframes (ensureFrameZero (processRotKfs ba.keyframes acc.2).1
            [rb.rotation.x, rb.rotation.y, rb.rotation.z, rb.rotation.w])⟩ ∨
        (processRotKfs ba.keyframes acc.2).1 = [] := by
      intro M hM hM0
      by_cases hnil : (processRotKfs ba.keyframes acc.2).1 = []
      · exact Or.inr hnil
      refine Or.inl (pushedTrack_wf bones bid _ _ _ M hnil hM0 ?_ ?_)
      · exact fun kf hkf => le_trans ((hrotspec.2 kf hkf).1) hM
      · intro _ hrest
        constructor
        · intro kf hkf
          obtain ⟨x, y, z, w, hv⟩ := (hrotspec.2 kf hkf).2
          obtain ⟨a, b, c, d, he, hu⟩ := normalizeQuat4_unit x y z w
          exact ⟨a, b, c, d, hv.trans he, hu⟩
        · exact ⟨rb.rotation.x, rb.rotation.y, rb.rotation.z, rb.rotation.w,
            rfl, hrest rb hrb⟩
    by_cases hre : (processRotKfs ba.keyframes acc.2).1.isEmpty
    · simp only [hre, if_true]
      have hposspec := processPosKfs_spec ba.keyframes
        (processRotKfs ba.keyframes acc.2).2
      have hm2 := hposspec.1
      have h02 : 0 ≤ (processPosKfs ba.keyframes
          (processRotKfs ba.keyframes acc.2).2).2 :=
        le_trans h0 (le_trans hm1 hm2)
      by_cases hpe : (processPosKfs ba.keyframes
          (processRotKfs ba.keyframes acc.2).2).1.isEmpty
      · simp only [hpe, if_true]
        exact ⟨h02, fun tr htr => TrackWF_mono bones
          (le_trans hm1 hm2) tr (hacc tr htr)⟩
      · simp only [Bool.not_eq_true] at hpe
        simp only [hpe, Bool.false_eq_true, if_false]
        refine ⟨h02, ?_⟩
        intro tr htr
        rcases List.mem_append.mp htr with hh | hh
        · exact TrackWF_mono bones (le_trans hm1 hm2) tr (hacc tr hh)
        · rw [List.mem_singleton.mp hh]
          refine pushedTrack_wf bones bid _ _ _ _ ?_ h02 ?_ ?_
          · intro hnil
            rw [hnil] at hpe
            simp at hpe
          · exact fun kf hkf => hposspec.2 kf hkf
          · intro hp
            exact absurd hp (by decide)
    · simp only [Bool.not_eq_true] at hre
      simp only [hre, Bool.false_eq_true, if_false]
      have hposspec := processPosKfs_spec ba.keyframes
        (processRotKfs ba.keyframes acc.2).2
      have hm2 := hposspec.1
      have h02 : 0 ≤ (processPosKfs ba.keyframes
          (processRotKfs ba.keyframes acc.2).2).2 :=
        le_trans h0 (le_trans hm1 hm2)
      have hrottr : TrackWF bones (processPosKfs ba.keyframes
          (processRotKfs ba.keyframes acc.2).2).2
          ⟨bid, TrackProp.rotApplied,
            sortKeyframes (ensureFrameZero
              (processRotKfs ba.keyframes acc.2).1
              [rb.rotation.x, rb.rotation.y, rb.rotation.z,
                rb.rotation.w])⟩ := by
        rcases hrotwf _ hm2 h02 with hh | hh
        · exact hh
        · rw [hh] at hre
          simp at hre
      by_cases hpe : (processPosKfs ba.keyframes
          (processRotKfs ba.keyframes acc.2).2).1.isEmpty
      · simp only [hpe, if_true]
        refine ⟨h02, ?_⟩
        intro tr htr
        rcases List.mem_append.mp htr with hh | hh
        · exact TrackWF_mono bones (le_trans hm1 hm2) tr (hacc tr hh)
        · rw [List.mem_singleton.mp hh]
          exact hrottr
      · simp only [Bool.not_eq_true] at hpe
        simp only [hpe, Bool.false_eq_true, if_false]
        refine ⟨h02, ?_⟩
        intro tr htr
        rcases List.mem_append.mp htr with hh | hh
        · rcases List.mem_append.mp hh with hg | hg
          · exact TrackWF_mono bones (le_trans hm1 hm2) tr (hacc tr hg)
          · rw [List.mem_singleton.mp hg]
            exact hrottr
        · rw [List.mem_singleton.mp hh]
          refine pushedTrack_wf bones bid _ _ _ _ ?_ h02 ?_ ?_
          · intro hnil
            rw [hnil] at hpe
            simp at hpe
          · exact fun kf hkf => hposspec.2 kf hkf
          · intro hp
            exact absurd hp (by decide)


/-- The whole conversion fold preserves track well-formedness. -/
theorem convertFold_wf (bones : List (BoneData ℝ)) :
    ∀ (entries : List RawBoneAnim) (acc : List (AnimationTrack ℝ) × ℝ),
      0 ≤ acc.2 → (∀ tr ∈ acc.1, TrackWF bones acc.2 tr) →
      0 ≤ (entries.foldl (fun a ba => convertBoneAnim bones ba a) acc).2 ∧
      ∀ tr ∈ (entries.foldl (fun a ba => convertBoneAnim bones ba a) acc).1,
        TrackWF bones
          (entries.foldl (fun a ba => convertBoneAnim bones ba a) acc).2
          tr := by
  intro entries
  induction entries with
  | nil => exact fun acc h0 hacc => ⟨h0, hacc⟩
  | cons ba rest ih =>
    intro acc h0 hacc
    rw [List.foldl_cons]
    exact ih (convertBoneAnim bones ba acc)
      (convertBoneAnim_wf bones ba acc h0 hacc).1
      (convertBoneAnim_wf bones ba acc h0 hacc).2

/-- Root-motion locking only removes tracks. -/
theorem lockRootMotion_subset (tracks : List (AnimationTrack ℝ))
    (bones : List (BoneData ℝ)) :
    ∀ tr ∈ lockRootMotion tracks bones, tr ∈ tracks := by
  rw [lockRootMotion]
  intro tr htr
  split at htr
  · exact htr
  · exact (List.mem_filter.mp htr).1

/-- First-occurrence deduplication only keeps input elements. -/
theorem uniqueFirstAux_subset :
    ∀ (l seen : List ℝ), ∀ x ∈ uniqueFirstAux l seen, x ∈ l := by
  intro l
  induction l with
  | nil =>
    intro seen x hx
    rw [uniqueFirstAux] at hx
    exact absurd hx (List.not_mem_nil x)
  | cons a rest ih =>
    intro seen x hx
    rw [uniqueFirstAux] at hx
    split at hx
    · exact List.mem_cons_of_mem a (ih _ x hx)
    · rcases List.mem_cons.mp hx with hh | hh
      · exact hh ▸ List.mem_cons_self a rest
      · exact List.mem_cons_of_mem a (ih _ x hh)

/-- Replacing the first matching rotation track yields tracks of the input
or a rotation track carrying exactly the new keyframes. -/
theorem replaceFirstRotTrack_mem :
    ∀ (l : List (AnimationTrack ℝ)) (bid : ℕ) (kfs : List (Keyframe ℝ)),
      ∀ tr ∈ replaceFirstRotTrack l bid kfs,
        tr ∈ l ∨
        (tr.property = TrackProp.rotApplied ∧ tr.keyframes = kfs) := by
  intro l
  induction l with
  | nil =>
    intro bid kfs tr htr
    rw [replaceFirstRotTrack] at htr
    exact absurd htr (List.not_mem_nil tr)
  | cons t rest ih =>
    intro bid kfs tr htr
    rw [replaceFirstRotTrack] at htr
    by_cases hc : t.property == TrackProp.rotApplied && t.boneId == bid
    · rw [if_pos hc] at htr
      rcases List.mem_cons.mp htr with hh | hh
      · refine Or.inr ?_
        have hp : t.property = TrackProp.rotApplied :=
          eq_of_beq (Bool.and_elim_left hc)
        rw [hh]
        exact ⟨hp, rfl⟩
      · exact Or.inl (List.mem_cons_of_mem t hh)
    · rw [if_neg hc] at htr
      rcases List.mem_cons.mp htr with hh | hh
      · exact Or.inl (hh ▸ List.mem_cons_self t rest)
      · rcases ih bid kfs tr hh with hg | hg
        · exact Or.inl (List.mem_cons_of_mem t hg)
        · exact Or.inr hg

/-- Same membership property for replacing the last matching track. -/
theorem replaceLastRotTrack_mem (tracks : List (AnimationTrack ℝ)) (bid : ℕ)
    (kfs : List (Keyframe ℝ)) :
    ∀ tr ∈ replaceLastRotTrack tracks bid kfs,
      tr ∈ tracks ∨
      (tr.property = TrackProp.rotApplied ∧ tr.keyframes = kfs) := by
  intro tr htr
  rw [replaceLastRotTrack] at htr
  rcases replaceFirstRotTrack_mem tracks.reverse bid kfs tr
      (List.mem_reverse.mp htr) with hh | hh
  · exact Or.inl (List.mem_reverse.mp hh)
  · exact Or.inr hh

/-- Frame and value structure of a keyframe list built by mapping a
keyframe constructor over a frame list. -/
theorem swingKfs_spec (frames : List ℝ) (g : ℝ → Keyframe ℝ)
    (hg : ∀ f, (g f).frame = f)
    (hv : ∀ f, ∃ x y z w, (g f).value = [x, y, z, w] ∧
      x * x + y * y + z * z + w * w = 1) :
    (frames.map g).map (fun kf => kf.frame) = frames ∧
    ∀ kf ∈ frames.map g, ∃ x y z w, kf.value = [x, y, z, w] ∧
      x * x + y * y + z * z + w * w = 1 := by
  constructor
  · rw [List.map_map]
    calc frames.map ((fun kf => kf.frame) ∘ g)
        = frames.map (fun f => f) := List.map_congr_left (fun f _ => hg f)
      _ = frames := List.map_id' frames
  · intro kf hkf
    obtain ⟨f, _, hf⟩ := List.mem_map.mp hkf
    obtain ⟨x, y, z, w, hval, hu⟩ := hv f
    exact ⟨x, y, z, w, by rw [← hf]; exact hval, hu⟩

/-- Every track after one arm-swing pass is an input track or a rotation
track whose keyframe frames are exactly the fallback frames and whose
values are unit quaternions. -/
theorem applyArmSwing_mem (tracks : List (AnimationTrack ℝ))
    (bones : List (BoneData ℝ)) (rig : RigAnalysis) (frames : List ℝ)
    (fcnt d : ℝ) (bOpt : Option (BoneData ℝ)) (side : Side) :
    ∀ tr ∈ applyArmSwing tracks bones rig frames fcnt d bOpt side,
      tr ∈ tracks ∨
      (tr.property = TrackProp.rotApplied ∧
        tr.keyframes.map (fun kf => kf.frame) = frames ∧
        ∀ kf ∈ tr.keyframes, ∃ x y z w, kf.value = [x, y, z, w] ∧
          x * x + y * y + z * z + w * w = 1) := by
  intro tr htr
  rw [applyArmSwing.eq_def] at htr
  cases bOpt with
  | none => exact Or.inl htr
  | some bone =>
    dsimp only at htr
    split at htr
    · exact Or.inl htr
    · split at htr
      · exact Or.inl htr
      · split at htr
        · rcases replaceLastRotTrack_mem tracks bone.id _ tr htr with hh | hh
          · exact Or.inl hh
          · refine Or.inr ⟨hh.1, ?_, ?_⟩
            · rw [hh.2]
              exact (swingKfs_spec frames _ (fun f => rfl)
                (fun f => ⟨_, _, _, _, rfl, quatNormalize_unit _⟩)).1
            · rw [hh.2]
              exact (swingKfs_spec frames _ (fun f => rfl)
                (fun f => ⟨_, _, _, _, rfl, quatNormalize_unit _⟩)).2
        · rcases List.mem_append.mp htr with hh | hh
          · exact Or.inl hh
          · rw [List.mem_singleton.mp hh]
            refine Or.inr ⟨rfl, ?_, ?_⟩
            · exact (swingKfs_spec frames _ (fun f => rfl)
                (fun f => ⟨_, _, _, _, rfl, quatNormalize_unit _⟩)).1
            · exact (swingKfs_spec frames _ (fun f => rfl)
                (fun f => ⟨_, _, _, _, rfl, quatNormalize_unit _⟩)).2


/-- The fallback's frame grid: contains frame 0, is sorted, and stays
within the frame count. -/
theorem fallbackFrames_spec (fc : ℝ) (h2 : 2 ≤ fc) :
    (0 : ℝ) ∈ List.insertionSort (fun a b : ℝ => a ≤ b)
      (uniqueFirstAux [0, jround (fc * 0.25), jround (fc * 0.5),
        jround (fc * 0.75), fc - 1] []) ∧
    List.Sorted (fun a b : ℝ => a ≤ b)
      (List.insertionSort (fun a b : ℝ => a ≤ b)
        (uniqueFirstAux [0, jround (fc * 0.25), jround (fc * 0.5),
          jround (fc * 0.75), fc - 1] [])) ∧
    ∀ f ∈ List.insertionSort (fun a b : ℝ => a ≤ b)
        (uniqueFirstAux [0, jround (fc * 0.25), jround (fc * 0.5),
          jround (fc * 0.75), fc - 1] []),
      f ≤ fc := by
  haveI hT : IsTotal ℝ (fun a b : ℝ => a ≤ b) := ⟨fun a b => le_total a b⟩
  haveI hR : IsTrans ℝ (fun a b : ℝ => a ≤ b) := ⟨fun a b c => le_trans⟩
  have hj : ∀ x : ℝ, jround x ≤ x + 1 / 2 := fun x => by
    rw [jround]
    exact Int.floor_le (x + 1 / 2)
  refine ⟨?_, List.sorted_insertionSort _ _, ?_⟩
  · apply (List.perm_insertionSort _ _).mem_iff.mpr
    rw [uniqueFirstAux]
    rw [if_neg (List.not_mem_nil (0 : ℝ))]
    exact List.mem_cons_self _ _
  · intro f hf
    have hmem := uniqueFirstAux_subset _ [] f
      ((List.perm_insertionSort _ _).mem_iff.mp hf)
    simp only [List.mem_cons, List.not_mem_nil, or_false] at hmem
    rcases hmem with h | h | h | h | h
    · rw [h]; linarith
    · rw [h]; linarith [hj (fc * 0.25)]
    · rw [h]; linarith [hj (fc * 0.5)]
    · rw [h]; linarith [hj (fc * 0.75)]
    · rw [h]; linarith

/-- The fallback preserves the clip's fps and frame count. -/
theorem applyMotionFallback_proj (clip : AnimationClip)
    (bones : List (BoneData ℝ)) (prompt : Option (List Char)) :
    (applyMotionFallback clip bones prompt).fps = clip.fps ∧
    (applyMotionFallback clip bones prompt).frameCount = clip.frameCount := by
  rw [applyMotionFallback.eq_def]
  cases prompt with
  | none => exact ⟨rfl, rfl⟩
  | some p =>
    dsimp only
    split
    · exact ⟨rfl, rfl⟩
    · split
      · exact ⟨rfl, rfl⟩
      · exact ⟨rfl, rfl⟩

/-- Every track after the fallback is an original track or a synthesized
arm-swing rotation track that is nonempty, starts at frame 0, is sorted,
stays within the frame count and carries unit quaternion values. -/
theorem applyMotionFallback_tracks (clip : AnimationClip)
    (bones : List (BoneData ℝ)) (prompt : Option (List Char))
    (h2 : 2 ≤ clip.frameCount) :
    ∀ tr ∈ (applyMotionFallback clip bones prompt).tracks,
      tr ∈ clip.tracks ∨
      (tr.property = TrackProp.rotApplied ∧ tr.keyframes ≠ [] ∧
        (∃ kf ∈ tr.keyframes, kf.frame = 0) ∧
        List.Sorted (fun a b : Keyframe ℝ => a.frame ≤ b.frame)
          tr.keyframes ∧
        (∀ kf ∈ tr.keyframes, kf.frame ≤ clip.frameCount) ∧
        ∀ kf ∈ tr.keyframes, ∃ x y z w, kf.value = [x, y, z, w] ∧
          x * x + y * y + z * z + w * w = 1) := by
  intro tr htr
  rw [applyMotionFallback.eq_def] at htr
  cases prompt with
  | none => exact Or.inl htr
  | some p =>
    dsimp only at htr
    split at htr
    · exact Or.inl htr
    · split at htr
      · exact Or.inl htr
      · have hmax : max 2 clip.frameCount = clip.frameCount := max_eq_right h2
        have h2' : (2 : ℝ) ≤ max 2 clip.frameCount := le_max_left _ _
        obtain ⟨hzero, hsorted, hbound⟩ :=
          fallbackFrames_spec (max 2 clip.frameCount) h2'
        have hshape : ∀ tr2 : AnimationTrack ℝ,
            tr2.property = TrackProp.rotApplied →
            tr2.keyframes.map (fun kf => kf.frame) =
              List.insertionSort (fun a b : ℝ => a ≤ b)
                (uniqueFirstAux [0, jround (max 2 clip.frameCount * 0.25),
                  jround (max 2 clip.frameCount * 0.5),
                  jround (max 2 clip.frameCount * 0.75),
                  max 2 clip.frameCount - 1] []) →
            (∀ kf ∈ tr2.keyframes, ∃ x y z w, kf.value = [x, y, z, w] ∧
              x * x + y * y + z * z + w * w = 1) →
            tr2.property = TrackProp.rotApplied ∧ tr2.keyframes ≠ [] ∧
            (∃ kf ∈ tr2.keyframes, kf.frame = 0) ∧
            List.Sorted (fun a b : Keyframe ℝ => a.frame ≤ b.frame)
              tr2.keyframes ∧
            (∀ kf ∈ tr2.keyframes, kf.frame ≤ clip.frameCount) ∧
            ∀ kf ∈ tr2.keyframes, ∃ x y z w, kf.value = [x, y, z, w] ∧
              x * x + y * y + z * z + w * w = 1 := by
          intro tr2 hp hmap hvals
          refine ⟨hp, ?_, ?_, ?_, ?_, hvals⟩
          · intro hnil
            rw [hnil] at hmap
            rw [← hmap] at hzero
            exact absurd hzero (List.not_mem_nil 0)
          · rw [← hmap] at hzero
            obtain ⟨kf, hkf, hf⟩ := List.mem_map.mp hzero
            exact ⟨kf, hkf, hf⟩
          · rw [← hmap] at hsorted
            exact (List.pairwise_map.mp hsorted)
          · intro kf hkf
            have : kf.frame ∈ tr2.keyframes.map (fun kf => kf.frame) :=
              List.mem_map_of_mem _ hkf
            rw [hmap] at this
            exact le_of_le_of_eq (hbound _ this) hmax
        dsimp only at htr
        rcases applyArmSwing_mem _ bones _ _ _ _ _ _ tr htr with hh | hh
        · rcases applyArmSwing_mem _ bones _ _ _ _ _ _ tr hh with hg | hg
          · exact Or.inl hg
          · exact Or.inr (hshape tr hg.1 hg.2.1 hg.2.2)
        · exact Or.inr (hshape tr hh.1 hh.2.1 hh.2.2)


/-- C10 (amended): every clip returned by the AI-response conversion has
fps clamped into `[1, 120]` (exactly 30 for a non-finite response fps), a
frame count of at least 2, and only well-formed tracks: nonempty, sorted,
containing a frame-0 keyframe, all frames at most the frame count (the
original strict bound fails at frameCount 2, where the locomotion fallback
emits a keyframe at `round(0.75·2) = 2`), and unit rotation values whenever
the skeleton's rest rotations are unit quaternions. -/
theorem C10_clip_wellformed (data : RawAnimationData)
    (bones : List (BoneData ℝ)) (prompt : Option (List Char))
    (clip : AnimationClip)
    (h : convertToAnimationClip data bones prompt = some clip) :
    1 ≤ clip.fps ∧ clip.fps ≤ 120 ∧
    (jsFinite? data.fps = none → clip.fps = 30) ∧
    2 ≤ clip.frameCount ∧
    ∀ tr ∈ clip.tracks, TrackWF bones clip.frameCount tr := by
  rw [convertToAnimationClip] at h
  dsimp only at h
  by_cases hE : (data.bones.foldl
      (fun acc ba => convertBoneAnim bones ba acc) ([], 0)).1.isEmpty
  · rw [if_pos hE] at h
    exact absurd h (by simp)
  · rw [if_neg hE] at h
    have hclip : clip = applyMotionFallback
        ⟨match jsFinite? data.fps with
          | some x => min 120 (max 1 x)
          | none => (30 : ℝ),
         if (match jsFinite? data.frameCount with
              | some x => max 2 ((⌊x + 1 / 2⌋ : ℤ) : ℝ)
              | none => (60 : ℝ)) <
            (data.bones.foldl
              (fun acc ba => convertBoneAnim bones ba acc) ([], 0)).2 + 1
         then (data.bones.foldl
              (fun acc ba => convertBoneAnim bones ba acc) ([], 0)).2 + 1
         else (match jsFinite? data.frameCount with
              | some x => max 2 ((⌊x + 1 / 2⌋ : ℤ) : ℝ)
              | none => (60 : ℝ)),
         lockRootMotion (data.bones.foldl
            (fun acc ba => convertBoneAnim bones ba acc) ([], 0)).1 bones⟩
        bones prompt :=
      (Option.some_inj.mp h).symm
    have hproj := applyMotionFallback_proj
      ⟨match jsFinite? data.fps with
        | some x => min 120 (max 1 x)
        | none => (30 : ℝ),
       if (match jsFinite? data.frameCount with
            | some x => max 2 ((⌊x + 1 / 2⌋ : ℤ) : ℝ)
            | none => (60 : ℝ)) <
          (data.bones.foldl
            (fun acc ba => convertBoneAnim bones ba acc) ([], 0)).2 + 1
       then (data.bones.foldl
            (fun acc ba => convertBoneAnim bones ba acc) ([], 0)).2 + 1
       else (match jsFinite? data.frameCount with
            | some x => max 2 ((⌊x + 1 / 2⌋ : ℤ) : ℝ)
            | none => (60 : ℝ)),
       lockRootMotion (data.bones.foldl
          (fun acc ba => convertBoneAnim bones ba acc) ([], 0)).1 bones⟩
      bones prompt
    have hfpseq : clip.fps = (match jsFinite? data.fps with
        | some x => min 120 (max 1 x)
        | none => (30 : ℝ)) := by
      rw [hclip]
      exact hproj.1
    have hfceq : clip.frameCount =
        (if (match jsFinite? data.frameCount with
              | some x => max 2 ((⌊x + 1 / 2⌋ : ℤ) : ℝ)
              | none => (60 : ℝ)) <
            (data.bones.foldl
              (fun acc ba => convertBoneAnim bones ba acc) ([], 0)).2 + 1
         then (data.bones.foldl
              (fun acc ba => convertBoneAnim bones ba acc) ([], 0)).2 + 1
         else (match jsFinite? data.frameCount with
              | some x => max 2 ((⌊x + 1 / 2⌋ : ℤ) : ℝ)
              | none => (60 : ℝ))) := by
      rw [hclip]
      exact hproj.2
    have hFC0 : 2 ≤ (match jsFinite? data.frameCount with
        | some x => max 2 ((⌊x + 1 / 2⌋ : ℤ) : ℝ)
        | none => (60 : ℝ)) := by
      cases hdf : jsFinite? data.frameCount with
      | none => norm_num
      | some x => exact le_max_left _ _
    have hfold := convertFold_wf bones data.bones ([], 0) (le_refl 0)
      (fun tr htr => absurd htr (List.not_mem_nil tr))
    have hfc2 : 2 ≤ clip.frameCount ∧
        (data.bones.foldl
          (fun acc ba => convertBoneAnim bones ba acc) ([], 0)).2 + 1 ≤
          clip.frameCount := by
      rw [hfceq]
      by_cases hlt : (match jsFinite? data.frameCount with
          | some x => max 2 ((⌊x + 1 / 2⌋ : ℤ) : ℝ)
          | none => (60 : ℝ)) <
          (data.bones.foldl
            (fun acc ba => convertBoneAnim bones ba acc) ([], 0)).2 + 1
      · rw [if_pos hlt]
        exact ⟨by linarith, le_refl _⟩
      · rw [if_neg hlt]
        push_neg at hlt
        exact ⟨hFC0, hlt⟩
    refine ⟨?_, ?_, ?_, hfc2.1, ?_⟩
    · rw [hfpseq]
      cases hdf : jsFinite? data.fps with
      | none => norm_num
      | some x => exact le_min (by norm_num) (le_max_left 1 x)
    · rw [hfpseq]
      cases hdf : jsFinite? data.fps with
      | none => norm_num
      | some x => exact min_le_left _ _
    · intro hnone
      rw [hfpseq, hnone]
    · intro tr htr
      rw [hclip] at htr
      rcases applyMotionFallback_tracks _ bones prompt
          (by exact hfc2.1.trans_eq hfceq) tr htr with hh | hh
      · have hmem := lockRootMotion_subset _ bones tr hh
        refine TrackWF_mono bones ?_ tr (hfold.2 tr hmem)
        linarith [hfc2.2]
      · obtain ⟨hp, hne, hz, hs, hb, hv⟩ := hh
        refine ⟨hne, hz, hs, ?_, fun _ _ => hv⟩
        intro kf hkf
        exact le_of_le_of_eq (hb kf hkf) hfceq.symm



theorem jsFrame_one : jsMax0 (jsRound (JSNum.fin 1)) = JSNum.fin 1 := by
  rw [jsRound, jsMax0]
  norm_num

theorem normalizeQuat4_two : normalizeQuat4 0 0 0 2 = [0, 0, 0, 1] := by
  have h4 : Real.sqrt ((0:ℝ) * 0 + 0 * 0 + 0 * 0 + 2 * 2) = 2 := by
    rw [show ((0:ℝ) * 0 + 0 * 0 + 0 * 0 + 2 * 2) = 4 by norm_num]
    rw [Real.sqrt_eq_iff_mul_self_eq_of_pos (by norm_num : (0:ℝ) < 2)]
    norm_num
  rw [normalizeQuat4]
  rw [h4]
  norm_num

theorem lookup_demoC10 :
    lookupBoneId demoC10Bones (some ("hips".toList)) = some 0 := rfl

theorem find_demoC10 :
    List.find? (fun b => b.id == 0) demoC10Bones = some demoHips := rfl

theorem conv_demoC10_pair :
    demoC10Data.bones.foldl
        (fun acc ba => convertBoneAnim demoC10Bones ba acc) ([], 0) =
      ([⟨0, TrackProp.rotApplied,
          [⟨0, [0, 0, 0, 1], InterpKind.linear⟩,
           ⟨1, [0, 0, 0, 1], InterpKind.linear⟩]⟩], 1) := by
  have hmax01 : max (0 : ℝ) 1 = 1 := by norm_num
  simp only [demoC10Data, List.foldl, convertBoneAnim, lookup_demoC10,
    find_demoC10, processRotKfs, processPosKfs, jsFrame_one, jsFinite?,
    List.length_cons, List.length_nil, hmax01, normalizeQuat4_two, List.isEmpty,
    demoHips, ensureFrameZero, List.any, Option.getD]
  norm_num [sortKeyframes, List.insertionSort, List.orderedInsert]


theorem rig_humanoid : (analyzeRig demoC10Bones).isHumanoid = true := rfl

theorem rig_armL :
    (analyzeRig demoC10Bones).groups GroupKey.upperArmLeft = some demoArm := rfl

theorem rig_armR :
    (analyzeRig demoC10Bones).groups GroupKey.upperArmRight = none := rfl

theorem rig_lowerL :
    (analyzeRig demoC10Bones).groups GroupKey.lowerArmLeft = none := rfl

theorem rig_handL :
    (analyzeRig demoC10Bones).groups GroupKey.handLeft = some demoHand := rfl

theorem walk_intent : detectIntent ("walk".toList) = Intent.locomotion := rfl


theorem jround_quarter2 : jround ((2:ℝ) * 0.25) = 1 := by
  rw [jround]
  norm_num

theorem jround_half2 : jround ((2:ℝ) * 0.5) = 1 := by
  rw [jround]
  norm_num

theorem jround_threeq2 : jround ((2:ℝ) * 0.75) = 2 := by
  rw [jround]
  norm_num

theorem uniqueFirst_demo : uniqueFirstAux [(0:ℝ), 1, 1, 2, 1] [] = [0, 1, 2] := by
  rw [uniqueFirstAux, if_neg (List.not_mem_nil (0:ℝ))]
  rw [uniqueFirstAux, if_neg (by norm_num : ¬ ((1:ℝ) ∈ [0]))]
  rw [uniqueFirstAux, if_pos (by norm_num : (1:ℝ) ∈ [1, 0])]
  rw [uniqueFirstAux, if_neg (by norm_num : ¬ ((2:ℝ) ∈ [1, 0]))]
  rw [uniqueFirstAux, if_pos (by norm_num : (1:ℝ) ∈ [2, 1, 0])]
  rw [uniqueFirstAux]

theorem sort_demo012 :
    List.insertionSort (fun a b : ℝ => a ≤ b) [0, 1, 2] = [0, 1, 2] := by
  norm_num [List.insertionSort, List.orderedInsert]


/-- C10 (counterexample): at `frameCount = 2` the locomotion fallback's
frame grid contains `round(0.75 * 2) = 2`, so the returned clip carries a
keyframe whose frame EQUALS the frame count — the claimed strict bound
`frame < frameCount` fails. -/
theorem C10_frameCount_counterexample :
    (convertToAnimationClip demoC10Data demoC10Bones
        (some ("walk".toList))).map
      (fun clip => (clip.frameCount,
        clip.tracks.map (fun tr => tr.keyframes.map (fun kf => kf.frame)))) =
      some (2, [[0, 1], [0, 1, 2]]) := by
  have hfc0 : (max 2 ((⌊(2:ℝ) + 1 / 2⌋ : ℤ) : ℝ)) = 2 := by norm_num
  have hlock : lockRootMotion
      [⟨0, TrackProp.rotApplied,
        [⟨0, [0, 0, 0, 1], InterpKind.linear⟩,
         ⟨1, [0, 0, 0, 1], InterpKind.linear⟩]⟩] demoC10Bones =
      [⟨0, TrackProp.rotApplied,
        [⟨0, [0, 0, 0, 1], InterpKind.linear⟩,
         ⟨1, [0, 0, 0, 1], InterpKind.linear⟩]⟩] := rfl
  have hdfps : demoC10Data.fps = JSNum.fin 30 := rfl
  have hdfc : demoC10Data.frameCount = JSNum.fin 2 := rfl
  rw [convertToAnimationClip]
  simp only [conv_demoC10_pair, List.isEmpty, Bool.false_eq_true, if_false,
    hdfps, hdfc, jsFinite?, hfc0, hlock]
  rw [if_neg (by norm_num : ¬ ((2:ℝ) < 1 + 1))]
  rw [applyMotionFallback.eq_def]
  simp only [walk_intent, ne_eq, not_true_eq_false, if_false, rig_humanoid,
    Bool.true_eq_false, not_false_eq_true, if_true, rig_armL, rig_armR,
    rig_lowerL, rig_handL]
  have h22 : (2:ℝ) ⊔ 2 = 2 := by norm_num
  have h21 : (2:ℝ) - 1 = 1 := by norm_num
  have hfilt : List.filter
      (fun tr => tr.property == TrackProp.rotApplied && tr.boneId == demoArm.id)
      [(⟨0, TrackProp.rotApplied,
        [⟨0, [0, 0, 0, 1], InterpKind.linear⟩,
         ⟨1, [0, 0, 0, 1], InterpKind.linear⟩]⟩ : AnimationTrack ℝ)] = [] := rfl
  simp only [Option.map_some', h22, h21, jround_quarter2, jround_half2, jround_threeq2,
    uniqueFirst_demo, sort_demo012, applyArmSwing.eq_def, hfilt, List.getLast?,
    rig_lowerL, rig_handL, Option.orElse, List.map]


/-- Full evaluation of the C7 demo conversion: fps 30, frame count 10 and
an empty (root-locked) track list. -/
theorem conv_demoC7_clip :
    convertToAnimationClip demoC7Data [demoHips] none =
      some ⟨30, 10, []⟩ := by
  have hfind7 : List.find? (fun b => b.id == 0) [demoHips] = some demoHips :=
    rfl
  have hmax00 : max (0:ℝ) 0 = 0 := by norm_num
  have hpair : demoC7Data.bones.foldl
      (fun acc ba => convertBoneAnim [demoHips] ba acc) ([], 0) =
      ([⟨0, TrackProp.position, [⟨0, [0, 1, 0], InterpKind.linear⟩]⟩], 0) := by
    simp only [demoC7Data, List.foldl, convertBoneAnim, lookup_demoHips,
      hfind7, processRotKfs, processPosKfs, jsFrame_zero, jsFinite?,
      List.length_cons, List.length_nil, hmax00, List.isEmpty,
      ensureFrameZero, List.any, beq_self_eq_true, Bool.or_true, Bool.true_or,
      if_true, Option.getD, sortKeyframes, List.insertionSort,
      List.orderedInsert]
    norm_num
  have hdfps : demoC7Data.fps = JSNum.fin 30 := rfl
  have hdfc : demoC7Data.frameCount = JSNum.fin 10 := rfl
  have hfc10 : (max 2 ((⌊(10:ℝ) + 1 / 2⌋ : ℤ) : ℝ)) = 10 := by norm_num
  have hfps30 : min (120:ℝ) (max 1 30) = 30 := by norm_num
  have hlock7 : lockRootMotion
      [⟨0, TrackProp.position, [⟨0, [0, 1, 0], InterpKind.linear⟩]⟩]
      [demoHips] = [] := rfl
  rw [convertToAnimationClip]
  simp only [hpair, List.isEmpty, Bool.false_eq_true, if_false, hdfps, hdfc,
    jsFinite?, hfc10, hfps30, hlock7, applyMotionFallback.eq_def]
  rw [if_neg (by norm_num : ¬ ((10:ℝ) < 0 + 1))]

/-- Witness for C10: the clip converted from the C7 demo response is
well-formed in the amended sense. -/
theorem C10_clip_wellformed_witness :
    convertToAnimationClip demoC7Data [demoHips] none =
      some ⟨30, 10, []⟩ ∧
    (1 ≤ (⟨30, 10, []⟩ : AnimationClip).fps ∧
     (⟨30, 10, []⟩ : AnimationClip).fps ≤ 120 ∧
     (jsFinite? demoC7Data.fps = none →
       (⟨30, 10, []⟩ : AnimationClip).fps = 30) ∧
     2 ≤ (⟨30, 10, []⟩ : AnimationClip).frameCount ∧
     ∀ tr ∈ (⟨30, 10, ([] : List (AnimationTrack ℝ))⟩ : AnimationClip).tracks,
       TrackWF [demoHips] (⟨30, 10, []⟩ : AnimationClip).frameCount tr) :=
  ⟨conv_demoC7_clip,
   C10_clip_wellformed demoC7Data [demoHips] none ⟨30, 10, []⟩
     conv_demoC7_clip⟩

end MonsterRig
